import Mathlib

/-!
# Login lockout and user listing

A shallow embedding of three functions of the backend:

* `login` of `src/api/components/authentication/authentication-controller.js`
  (the failed-attempt counter kept in the module-level object
  `failedLoginAttempts`), and
* `getUsers` of `src/api/components/users/users-service.js` (the second
  declaration of that name, which is the one the module exports: in-memory
  filter, sort, pagination and projection), and
* the handler `getUsers` of `src/api/components/users/users-controller.js`,
  which parses the query parameters and calls the service.

Conventions of the embedding.

* JavaScript numbers that occur here are integers (counters, `Date.now()`
  readings, list lengths, parsed page numbers) or `NaN`; the integers are
  modelled by `Nat` and `Int`, exact as long as their magnitude stays below
  `2 ^ 53`.
* The object `failedLoginAttempts` is a plain object and is passed explicitly:
  its own properties and its prototype. A read goes up the prototype chain, so
  the properties of `Object.prototype` and the accessor `__proto__` are part of
  the model.
* Awaited collaborators (`checkLoginCredentials`, `usersRepository.getUsers`)
  are parameters: the first as a function whose result is the resolved value
  or the rejection, the second as the list it resolves to.
* The built-ins `String.prototype.toLowerCase` and
  `String.prototype.localeCompare` are parameters of `getUsers`; what a theorem
  needs of them is a hypothesis of that theorem. `asciiLowerCase` and
  `codePointCompare` are instances for the evaluation of sample data.
* `Date.now()` is read at two places of `login`; both readings are parameters.
-/

namespace Authentication

/-- The value of a `count` property: a natural number, or `NaN` (which
`undefined + 1` gives and every further `+ 1` keeps). -/
inductive Count where
  | num (n : Nat)
  | nan
deriving DecidableEq, Repr

/-- The sum `count + 1`. -/
def Count.succ : Count → Count
  | .num n => .num (n + 1)
  | .nan => .nan

/-- The comparison `count >= 5`; it is false for `NaN`. -/
def Count.atLimit : Count → Bool
  | .num n => decide (5 ≤ n)
  | .nan => false

/-- Truthiness of a number: `0` and `NaN` are falsy. -/
def Count.truthy : Count → Bool
  | .num n => decide (n ≠ 0)
  | .nan => false

/-- One entry of `failedLoginAttempts`: `{ count, timestamp }`. -/
structure Attempt where
  count : Count
  timestamp : Int
deriving DecidableEq, Repr

/-- The value of the expression `failedLoginAttempts[email]`: `undefined`, one
of the records, or another value found up the prototype chain (a function of
`Object.prototype`, or a number), of which only the truthiness matters: its
`count` property is `undefined`. -/
inductive Lookup where
  | undefined
  | record (rec : Attempt)
  | other (truthy : Bool)
deriving DecidableEq, Repr

/-- Truthiness of a looked-up value. -/
def Lookup.truthy : Lookup → Bool
  | .undefined => false
  | .record _ => true
  | .other b => b

/-- The object `failedLoginAttempts` (line 5), a plain object keyed by the raw
e-mail string: its own properties, and its prototype when an assignment to
`__proto__` has replaced `Object.prototype` by a record (`none`: the prototype
is `Object.prototype` itself). -/
structure Attempts where
  own : String → Option Attempt
  proto : Option Attempt

/-- The empty object `{}` the module starts with. -/
def Attempts.empty : Attempts := { own := fun _ => none, proto := none }

/-- The names of the function-valued properties of `Object.prototype`. -/
def objectPrototypeKeys : List String :=
  ["constructor", "__defineGetter__", "__defineSetter__", "hasOwnProperty",
   "__lookupGetter__", "__lookupSetter__", "isPrototypeOf", "propertyIsEnumerable",
   "toString", "valueOf", "toLocaleString"]

/-- A property read that reaches `Object.prototype`. -/
def fromObjectPrototype (key : String) : Lookup :=
  if key ∈ objectPrototypeKeys then .other true else .undefined

/-- The expression `failedLoginAttempts[key]`: the own property if there is
one, else what the prototype chain gives. The accessor `__proto__` gives the
prototype; a record that serves as prototype gives its two numbers under the
keys `count` and `timestamp`. -/
def Attempts.get (m : Attempts) (key : String) : Lookup :=
  match m.own key with
  | some rec => .record rec
  | none =>
    if key = "__proto__" then
      match m.proto with
      | some rec => .record rec
      | none => .other true
    else
      match m.proto with
      | some rec =>
        if key = "count" then .other rec.count.truthy
        else if key = "timestamp" then .other (decide (rec.timestamp ≠ 0))
        else fromObjectPrototype key
      | none => fromObjectPrototype key

/-- Assignment `failedLoginAttempts[key] = rec`: it writes an own property,
except for the key `__proto__` without an own property, where the inherited
setter makes `rec` the prototype. -/
def Attempts.set (m : Attempts) (key : String) (rec : Attempt) : Attempts :=
  if key = "__proto__" ∧ m.own key = none then { m with proto := some rec }
  else { m with own := fun k => if k = key then some rec else m.own k }

/-- Statement `delete failedLoginAttempts[key]`: it removes an own property. -/
def Attempts.delete (m : Attempts) (key : String) : Attempts :=
  { m with own := fun k => if k = key then none else m.own k }

/-- The keys under which a read can find a value up the prototype chain. -/
def inheritedKeys : List String :=
  "__proto__" :: "count" :: "timestamp" :: objectPrototypeKeys

/-- The two members of `errorTypes` that `login` uses. -/
inductive errorTypes where
  | FORBIDDEN
  | INVALID_CREDENTIALS
deriving DecidableEq, Repr

/-- What is handed to `next`: an error built by `errorResponder`, or the
rejection of the awaited credential check, passed on by the `catch`. -/
inductive LoginError where
  | responder (type : errorTypes) (message : String)
  | rejected (reason : String)
deriving DecidableEq, Repr

/-- How a call of `login` ends: `response.status(200).json(loginSuccess)` or
`next(error)`. -/
inductive Reply (Payload : Type) where
  | json (status : Nat) (body : Payload)
  | next (error : LoginError)
deriving DecidableEq, Repr

/-- The awaited value of `checkLoginCredentials(email, password)`: a rejection
(`Except.error`), a falsy value (`none`) or the login payload (`some`). -/
abbrev Check (Payload : Type) := String → String → Except String (Option Payload)

/-- Result of one call of `login`: the reply, the object `failedLoginAttempts`
after the call, and the arguments of every call made to
`checkLoginCredentials`. -/
structure LoginResult (Payload : Type) where
  reply : Reply Payload
  failedLoginAttempts : Attempts
  checked : List (String × String)

/-- The lockout window `30 * 60 * 1000` of line 22, in milliseconds. -/
def window : Int := 30 * 60 * 1000

/-- The rate-limit error thrown at lines 23-26. -/
def tooManyAttempts : LoginError :=
  .responder .FORBIDDEN "Too many failed login attempts. Please try again in 30 minutes."

/-- The error thrown at lines 47-50. -/
def wrongCredentials : LoginError :=
  .responder .INVALID_CREDENTIALS "Wrong email or password"

/-- Lines 19-31 of `login`: the check of the attempts limit. `currentTime` is
the reading of `Date.now()` at line 20. The result is the thrown error, or the
object `failedLoginAttempts` with which the function goes on. A looked-up value
that is not a record has no `count`, and `undefined >= 5` is false. -/
def limitCheck (m : Attempts) (email : String) (currentTime : Int) :
    Except LoginError Attempts :=
  match m.get email with
  | .record rec =>
    if rec.count.atLimit then
      if currentTime - rec.timestamp < window then
        .error tooManyAttempts
      else
        .ok (m.set email { count := .num 0, timestamp := currentTime })
    else .ok m
  | .other _ => .ok m
  | .undefined => .ok m

/-- The expression
`(failedLoginAttempts[email] ? failedLoginAttempts[email].count : 0) + 1` of
lines 42-44, from the looked-up value: `undefined + 1` is `NaN`. -/
def nextCount (l : Lookup) : Count :=
  match l with
  | .record rec => rec.count.succ
  | .other true => .nan
  | .other false => .num 1
  | .undefined => .num 1

/-- The function `login` (lines 14-62). `currentTime` is the reading of
`Date.now()` at line 20 and `failTime` the one at line 45. -/
def login {Payload : Type} (checkLoginCredentials : Check Payload) (m : Attempts)
    (email password : String) (currentTime failTime : Int) : LoginResult Payload :=
  match limitCheck m email currentTime with
  | .error e => { reply := .next e, failedLoginAttempts := m, checked := [] }
  | .ok m1 =>
    match checkLoginCredentials email password with
    | .error reason =>
      { reply := .next (.rejected reason), failedLoginAttempts := m1,
        checked := [(email, password)] }
    | .ok none =>
      { reply := .next wrongCredentials,
        failedLoginAttempts :=
          m1.set email { count := nextCount (m1.get email), timestamp := failTime },
        checked := [(email, password)] }
    | .ok (some loginSuccess) =>
      { reply := .json 200 loginSuccess,
        failedLoginAttempts := if (m1.get email).truthy then m1.delete email else m1,
        checked := [(email, password)] }

/-- The arguments of one call of `login`, with the state of its
collaborators at that call: the credential check and the two clock readings. -/
structure LoginCall (Payload : Type) where
  checkLoginCredentials : Check Payload
  email : String
  password : String
  currentTime : Int
  failTime : Int

/-- One call of `login` on the object `m`. -/
def LoginCall.run {Payload : Type} (c : LoginCall Payload) (m : Attempts) :
    LoginResult Payload :=
  login c.checkLoginCredentials m c.email c.password c.currentTime c.failTime

/-- Calls of `login` made one after the other, each on the object the one
before left: the final object and the replies in order. -/
def loginSeq {Payload : Type} (m : Attempts) :
    List (LoginCall Payload) → Attempts × List (Reply Payload)
  | [] => (m, [])
  | c :: cs =>
    let r := c.run m
    let rest := loginSeq r.failedLoginAttempts cs
    (rest.1, r.reply :: rest.2)

/-- A credential check that returns a falsy value for every argument. -/
def rejecting : Check Nat := fun _ _ => .ok none

/-- A credential check that returns the payload `7` for every argument. -/
def accepting : Check Nat := fun _ _ => .ok (some 7)

/-- A failing call for `email` with both clock readings equal to `t`. -/
def failingCallOf (email : String) (t : Int) : LoginCall Nat :=
  { checkLoginCredentials := rejecting, email := email, password := "guess",
    currentTime := t, failTime := t }

/-- A failing call for `a@x.com` with both clock readings equal to `t`. -/
def failingCall (t : Int) : LoginCall Nat := failingCallOf "a@x.com" t

/-- An object holding a block of `a@x.com` that began at time `0`. -/
def blocked : Attempts :=
  Attempts.empty.set "a@x.com" { count := .num 5, timestamp := 0 }

/-- The counter of the own record of `email`: `0` without one. -/
def countOf (m : Attempts) (email : String) : Count :=
  match m.own email with
  | some rec => rec.count
  | none => .num 0

end Authentication

namespace Users

/-- A document of the `User` collection, as far as `getUsers` reads it. -/
structure User where
  id : String
  name : String
  email : String
  password : String
deriving DecidableEq, Repr

/-- An element of `formattedResults` (lines 107-111): `{ id, name, email }`. -/
structure FormattedUser where
  id : String
  name : String
  email : String
deriving DecidableEq, Repr

/-- The arrow function of lines 107-111. -/
def format (user : User) : FormattedUser :=
  { id := user.id, name := user.name, email := user.email }

/-- A JavaScript number that is an integer or `NaN`: the value of
`Math.ceil(a / d)` (`NaN` from `0 / 0`) and of `parseInt(x)` (`NaN` when `x`
does not start with a number). The sign of a zero is not recorded. -/
inductive JsNumber where
  | num (n : Int)
  | nan
deriving DecidableEq, Repr

/-- The object returned by `getUsers` (lines 119-127). -/
structure Listing where
  page_number : Int
  page_size : Option Int
  count : Nat
  total_pages : JsNumber
  has_previous_page : Bool
  has_next_page : Bool
  data : List FormattedUser
deriving DecidableEq, Repr

/-! ### String primitives -/

/-- Lower-casing of the letters `A`-`Z`, every other character kept: what
`String.prototype.toLowerCase` does on a string of ASCII characters. It is the
instance of `toLowerCase` used to evaluate `getUsers` on ASCII sample data. -/
def asciiLowerCase (s : String) : String := ⟨s.data.map Char.toLower⟩

/-- Whether every character of `s` is an ASCII character. -/
def isAscii (s : String) : Bool := s.data.all fun c => decide (c.toNat < 128)

/-- Whether `t` occurs in `s` as a contiguous run of characters. -/
def includesChars : List Char → List Char → Bool
  | [], t => t.isEmpty
  | c :: s, t => t.isPrefixOf (c :: s) || includesChars s t

/-- `s.includes(t)` of `String.prototype.includes`. -/
def includes (s t : String) : Bool := includesChars s.data t.data

/-- The pieces of a character list between the occurrences of `sep`. -/
def splitChars (sep : Char) : List Char → List (List Char)
  | [] => [[]]
  | c :: cs =>
    if c = sep then [] :: splitChars sep cs
    else
      match splitChars sep cs with
      | [] => [[c]]
      | p :: ps => (c :: p) :: ps

/-- `s.split(sep)` of `String.prototype.split`, for a one-character separator. -/
def split (s : String) (sep : Char) : List String :=
  (splitChars sep s.data).map String.mk

/-! ### Array primitives -/

/-- `Array.prototype.sort(compareFn)`, applied to a copy of the list. The sort
is stable; for a consistent comparator its result is that of the insertion sort
used here, which places `a` before `b` when `compareFn(a, b) <= 0`. -/
def sort {α : Type} (compareFn : α → α → Int) (l : List α) : List α :=
  l.insertionSort (fun a b => compareFn a b ≤ 0)

/-- The clamping of an index argument of `Array.prototype.slice`: a negative
index counts from the end, and the result lies within `0 .. len`. -/
def relativeIndex (len : Nat) (i : Int) : Nat :=
  if i < 0 then ((len : Int) + i).toNat else min i.toNat len

/-- `l.slice(start, stop)` of `Array.prototype.slice`. -/
def slice {α : Type} (l : List α) (start stop : Int) : List α :=
  (l.take (relativeIndex l.length stop)).drop (relativeIndex l.length start)

/-! ### `getUsers` -/

/-- The callback of `userList.filter` (lines 53-70). `toLowerCase` is
`String.prototype.toLowerCase`. -/
def matchesSearch (toLowerCase : String → String) (searchQuery : String) (user : User) :
    Bool :=
  let searchTerm := toLowerCase searchQuery
  if includes searchTerm ":" then
    match split searchTerm ':' with
    | field :: term :: _ =>
      if field = "email" then includes (toLowerCase user.email) term
      else if field = "name" then includes (toLowerCase user.name) term
      else false
    | _ => false
  else
    includes (toLowerCase user.name) searchTerm ||
      includes (toLowerCase user.email) searchTerm

/-- The constant `filteredList` (line 53). -/
def filteredList (toLowerCase : String → String) (userList : List User)
    (searchQuery : String) : List User :=
  userList.filter (matchesSearch toLowerCase searchQuery)

/-- The comparator passed to `sort` (lines 79-91). -/
def compareUsers (localeCompare : String → String → Int) (field direction : String)
    (a b : User) : Int :=
  if field = "name" then
    if direction = "asc" then localeCompare a.name b.name else localeCompare b.name a.name
  else if field = "email" then
    if direction = "asc" then localeCompare a.email b.email else localeCompare b.email a.email
  else 0

/-- The variable `sortedList` (lines 73-97). `sorting` is `none` for
`undefined`; the empty string is falsy as well. -/
def sortedList (localeCompare : String → String → Int) (filtered : List User)
    (sorting : Option String) : List User :=
  match sorting with
  | none => filtered
  | some s =>
    if s = "" then filtered
    else
      match split s ':' with
      | [field, direction] => sort (compareUsers localeCompare field direction) filtered
      | _ => filtered

/-- Truthiness of `limit`: `null` and `0` are falsy. -/
def truthy (limit : Option Int) : Bool :=
  match limit with
  | some n => n ≠ 0
  | none => false

/-- The numeric value of `limit` in arithmetic: `null` counts as `0`. -/
def toNumber (limit : Option Int) : Int := limit.getD 0

/-- The constant `startIndex` (line 100). -/
def startIndex (page : Int) (limit : Option Int) : Int := (page - 1) * toNumber limit

/-- The constant `endIndex` (lines 101-103). -/
def endIndex (page : Int) (limit : Option Int) (length : Nat) : Int :=
  if truthy limit then min (startIndex page limit + toNumber limit) length else length

/-- The constant `paginatedList` (line 104). -/
def paginatedList (sorted : List User) (page : Int) (limit : Option Int) : List User :=
  slice sorted (startIndex page limit) (endIndex page limit sorted.length)

/-- `Math.ceil(a / d)` for integers `a` and `d` with `d` not zero: the least
integer that is at least the quotient. -/
def ceilDiv (a d : Int) : Int := -((-a).fdiv d)

/-- The constant `totalPages` (line 115):
`Math.ceil(totalUsers / (limit || sortedList.length))`. The divisor is `0` only
when `limit` is falsy and the list is empty; the quotient is then `0 / 0`. -/
def totalPages (totalUsers : Nat) (limit : Option Int) : JsNumber :=
  let divisor : Int := if truthy limit then toNumber limit else totalUsers
  if divisor = 0 then .nan else .num (ceilDiv totalUsers divisor)

/-- The comparison `totalPages > page` (line 117); it is false for `NaN`. -/
def JsNumber.gt (x : JsNumber) (page : Int) : Bool :=
  match x with
  | .num n => n > page
  | .nan => false

/-- The function `getUsers(page, limit, searchQuery, sorting)` of lines 49-128,
with the arguments in the order of the code, which is the order in which the
handler passes them. `userList` is what `usersRepository.getUsers()` resolves
to; `toLowerCase` and `localeCompare` are the built-ins of those names. An
argument left out is given by its default (`1`, `none`, `""`). -/
def getUsers (toLowerCase : String → String) (localeCompare : String → String → Int)
    (userList : List User) (page : Int) (limit : Option Int) (searchQuery : String)
    (sorting : Option String) : Listing :=
  let filtered := filteredList toLowerCase userList searchQuery
  let sorted := sortedList localeCompare filtered sorting
  let paginated := paginatedList sorted page limit
  let formattedResults := paginated.map format
  let totalUsers := sorted.length
  let total := totalPages totalUsers limit
  { page_number := page,
    page_size := limit,
    count := paginated.length,
    total_pages := total,
    has_previous_page := page > 1,
    has_next_page := total.gt page,
    data := formattedResults }

/-- The record `user` with its password blanked. -/
def withoutPassword (user : User) : User := { user with password := "" }

/-- Comparison of character lists by code point, shorter first on a common
start. -/
def compareChars : List Char → List Char → Int
  | [], [] => 0
  | [], _ :: _ => -1
  | _ :: _, [] => 1
  | a :: as, b :: bs =>
    if a.toNat < b.toNat then -1
    else if b.toNat < a.toNat then 1
    else compareChars as bs

/-- A comparison of strings by code point: an instance of `localeCompare` for
evaluating `getUsers` on sample data. -/
def codePointCompare (a b : String) : Int := compareChars a.data b.data

/-- The sample snapshot of the listing scenario. -/
def ann : User := { id := "1", name := "Ann", email := "a@x.com", password := "h1" }

/-- The second record of the sample snapshot. -/
def bob : User := { id := "2", name := "Bob", email := "b@x.com", password := "h2" }

/-- A third record, for snapshots of three. -/
def cat : User := { id := "3", name := "Cat", email := "c@x.com", password := "h3" }

end Users

namespace UsersController

open Users

/-- The constant `pageNum` (line 13 of `users-controller.js`):
`parseInt(request.query.page_number) || 1`. `parsed` is the value of the
`parseInt` call; `NaN` and `0` are falsy. -/
def pageNum (parsed : JsNumber) : Int :=
  match parsed with
  | .num n => if n ≠ 0 then n else 1
  | .nan => 1

/-- The constant `pageSize` (line 14): `parseInt(request.query.page_size) || null`. -/
def pageSize (parsed : JsNumber) : Option Int :=
  match parsed with
  | .num n => if n ≠ 0 then some n else none
  | .nan => none

/-- The handler `getUsers` of `users-controller.js` (lines 11-41): the body of
the JSON reply. `page_number` and `page_size` are the values of the two
`parseInt` calls, `search` and `sort` the query parameters (`none` for
`undefined`, which the service replaces by its default `""` for the search). -/
def getUsers (toLowerCase : String → String) (localeCompare : String → String → Int)
    (userList : List User) (page_number page_size : JsNumber)
    (search sort : Option String) : Listing :=
  Users.getUsers toLowerCase localeCompare userList (pageNum page_number)
    (pageSize page_size) (search.getD "") sort

end UsersController

/-! ## Theorems: `login` -/

namespace Authentication

variable {Payload : Type}

theorem get_of_own (m : Attempts) (key : String) (rec : Attempt)
    (h : m.own key = some rec) : m.get key = .record rec := by
  simp [Attempts.get, h]

/-- Under a key that no prototype chain answers, a read sees the own property
or nothing. -/
theorem get_ordinary (m : Attempts) (key : String) (hk : key ∉ inheritedKeys) :
    m.get key = match m.own key with
      | some rec => .record rec
      | none => .undefined := by
  simp only [inheritedKeys, objectPrototypeKeys, List.mem_cons, List.mem_singleton,
    List.not_mem_nil, not_or, or_false] at hk
  obtain ⟨h1, h2, h3, hrest⟩ := hk
  have hp : fromObjectPrototype key = .undefined := by
    simp only [fromObjectPrototype, objectPrototypeKeys, List.mem_cons, List.mem_singleton,
      List.not_mem_nil, or_false]
    rw [if_neg]
    simp only [not_or]
    exact hrest
  unfold Attempts.get
  cases m.own key with
  | some rec => rfl
  | none =>
    simp only [h1, h2, h3, if_false, hp]
    cases m.proto <;> rfl

theorem get_ordinary_none (m : Attempts) (key : String) (hk : key ∉ inheritedKeys)
    (h : m.own key = none) : m.get key = .undefined := by
  rw [get_ordinary m key hk, h]

theorem ne_proto_of_ordinary (key : String) (hk : key ∉ inheritedKeys) :
    key ≠ "__proto__" := by
  intro h
  exact hk (by simp [inheritedKeys, h])

theorem own_set_self (m : Attempts) (key : String) (rec : Attempt)
    (h : key ≠ "__proto__" ∨ m.own key ≠ none) : (m.set key rec).own key = some rec := by
  unfold Attempts.set
  have : ¬ (key = "__proto__" ∧ m.own key = none) := by
    rintro ⟨h1, h2⟩
    rcases h with h | h
    · exact h h1
    · exact h h2
  simp [this]

theorem own_set_other (m : Attempts) (key : String) (rec : Attempt) (k : String)
    (hk : k ≠ key) : (m.set key rec).own k = m.own k := by
  unfold Attempts.set
  split
  · rfl
  · simp [hk]

theorem proto_set (m : Attempts) (key : String) (rec : Attempt)
    (h : key ≠ "__proto__") : (m.set key rec).proto = m.proto := by
  unfold Attempts.set
  have : ¬ (key = "__proto__" ∧ m.own key = none) := fun h1 => h h1.1
  simp [this]

theorem own_delete_self (m : Attempts) (key : String) : (m.delete key).own key = none := by
  simp [Attempts.delete]

theorem own_delete_other (m : Attempts) (key : String) (k : String) (hk : k ≠ key) :
    (m.delete key).own k = m.own k := by
  simp [Attempts.delete, hk]

theorem countOf_of_eq (m : Attempts) (email : String) (rec : Attempt)
    (h : m.own email = some rec) : countOf m email = rec.count := by
  simp [countOf, h]

/-- The only error the limit check throws is the rate-limit error. -/
theorem limitCheck_error (m : Attempts) (email : String) (currentTime : Int)
    (e : LoginError) (h : limitCheck m email currentTime = .error e) :
    e = tooManyAttempts := by
  unfold limitCheck at h
  split at h
  · split at h
    · split at h
      · cases h; rfl
      · cases h
    · cases h
  · cases h
  · cases h

/-- The reply is the rate-limit error exactly when the limit check threw. -/
theorem reply_blocked_iff (check : Check Payload) (m : Attempts) (email password : String)
    (currentTime failTime : Int) :
    (login check m email password currentTime failTime).reply = .next tooManyAttempts ↔
      limitCheck m email currentTime = .error tooManyAttempts := by
  rcases hl : limitCheck m email currentTime with e | m1
  · have he := limitCheck_error m email currentTime e hl
    subst he
    simp [login, hl]
  · rcases hc : check email password with e | (_ | p) <;>
      simp [login, hl, hc, wrongCredentials, tooManyAttempts]

/-- A call whose reply is the rate-limit error leaves the object
`failedLoginAttempts` as it was and does not consult the credential check. -/
theorem blocked_unchanged (check : Check Payload) (m : Attempts) (email password : String)
    (currentTime failTime : Int)
    (h : (login check m email password currentTime failTime).reply = .next tooManyAttempts) :
    (login check m email password currentTime failTime).failedLoginAttempts = m ∧
      (login check m email password currentTime failTime).checked = [] := by
  have hl := (reply_blocked_iff check m email password currentTime failTime).1 h
  simp [login, hl]

/-- For a record at or over the limit, the limit check throws exactly inside
the window counted from the timestamp of the record. -/
theorem limitCheck_error_iff (m : Attempts) (email : String) (currentTime : Int)
    (rec : Attempt) (n : Nat) (hrec : m.get email = .record rec) (hn : rec.count = .num n)
    (hcount : 5 ≤ n) :
    limitCheck m email currentTime = .error tooManyAttempts ↔
      currentTime - rec.timestamp < window := by
  have h5 : rec.count.atLimit = true := by simp [hn, Count.atLimit, hcount]
  by_cases hw : currentTime - rec.timestamp < window
  · simp [limitCheck, hrec, h5, hw]
  · simp [limitCheck, hrec, h5, hw]

/-- A record at or over the limit and inside the window makes `login` throw
the rate-limit error before anything else happens. -/
theorem login_blocked (check : Check Payload) (m : Attempts) (email password : String)
    (currentTime failTime : Int) (rec : Attempt) (n : Nat)
    (hrec : m.get email = .record rec) (hn : rec.count = .num n)
    (hcount : 5 ≤ n) (hwin : currentTime - rec.timestamp < window) :
    login check m email password currentTime failTime =
      { reply := .next tooManyAttempts, failedLoginAttempts := m, checked := [] } := by
  have hl := (limitCheck_error_iff m email currentTime rec n hrec hn hcount).2 hwin
  simp [login, hl]

/-- The reply is the wrong-credentials error exactly when the limit check let
the call pass and the credential check returned a falsy value. -/
theorem reply_wrong_iff (check : Check Payload) (m : Attempts) (email password : String)
    (currentTime failTime : Int) :
    (login check m email password currentTime failTime).reply = .next wrongCredentials ↔
      (∃ m1, limitCheck m email currentTime = .ok m1) ∧ check email password = .ok none := by
  rcases hl : limitCheck m email currentTime with e | m1
  · have he := limitCheck_error m email currentTime e hl
    subst he
    simp [login, hl, tooManyAttempts, wrongCredentials]
  · rcases hc : check email password with e | (_ | p) <;>
      simp [login, hl, hc, wrongCredentials]

/-- What the limit check leaves under an ordinary key: the own record goes on
unchanged below the limit (or with a `NaN` count), and is reset to count 0
with the clock reading when the block has expired. -/
theorem limitCheck_ok_ordinary (m m1 : Attempts) (email : String) (currentTime : Int)
    (hk : email ∉ inheritedKeys) (h : limitCheck m email currentTime = .ok m1) :
    (∀ k, k ≠ email → m1.own k = m.own k) ∧ m1.proto = m.proto ∧
      ((m1 = m ∧ ∀ rec, m.own email = some rec → rec.count.atLimit = false) ∨
       (m1.own email = some { count := .num 0, timestamp := currentTime } ∧
         ∃ rec, m.own email = some rec ∧ rec.count.atLimit = true ∧
           window ≤ currentTime - rec.timestamp)) := by
  have hne := ne_proto_of_ordinary email hk
  unfold limitCheck at h
  rw [get_ordinary m email hk] at h
  cases hm : m.own email with
  | none =>
    simp only [hm] at h
    cases h
    exact ⟨fun _ _ => rfl, rfl, Or.inl ⟨rfl, fun rec hrec => by simp [hm] at hrec⟩⟩
  | some rec =>
    simp only [hm] at h
    by_cases h5 : rec.count.atLimit = true
    · by_cases hw : currentTime - rec.timestamp < window
      · simp [h5, hw] at h
      · simp only [h5, hw, if_true, if_false] at h
        cases h
        refine ⟨fun k hk' => own_set_other _ _ _ _ hk', proto_set _ _ _ hne,
          Or.inr ⟨?_, ?_⟩⟩
        · exact own_set_self _ _ _ (Or.inl hne)
        · exact ⟨rec, rfl, h5, not_lt.mp hw⟩
    · simp only [h5] at h
      cases h
      refine ⟨fun _ _ => rfl, rfl, Or.inl ⟨rfl, ?_⟩⟩
      intro r hr
      cases hr
      simpa using h5

/-- Under an ordinary key, a call that ends with the wrong-credentials error
has written the own record `{ count, timestamp }` with the counter one above
the one it went on with (`0` after the reset of an expired block). -/
theorem login_failed_record (check : Check Payload) (m : Attempts) (email password : String)
    (currentTime failTime : Int) (hk : email ∉ inheritedKeys)
    (h : (login check m email password currentTime failTime).reply = .next wrongCredentials) :
    (login check m email password currentTime failTime).failedLoginAttempts.own email =
      some { count := (if (countOf m email).atLimit then .num 0 else countOf m email).succ,
             timestamp := failTime } := by
  obtain ⟨⟨m1, hl⟩, hc⟩ := (reply_wrong_iff check m email password currentTime failTime).1 h
  have hne := ne_proto_of_ordinary email hk
  obtain ⟨_, _, hcase⟩ := limitCheck_ok_ordinary m m1 email currentTime hk hl
  simp only [login, hl, hc, own_set_self _ _ _ (Or.inl hne), get_ordinary m1 email hk]
  rcases hcase with ⟨rfl, hlow⟩ | ⟨hown, rec, hrec, h5, _⟩
  · cases hm : m1.own email with
    | none => simp [countOf, hm, Count.atLimit, Count.succ, nextCount]
    | some rec => simp [countOf, hm, hlow rec hm, nextCount]
  · simp [hown, countOf, hrec, h5, nextCount]

/-- One failing call in a sequence, under an ordinary key. -/
theorem run_failed (c : LoginCall Payload) (m : Attempts) (email : String)
    (hk : email ∉ inheritedKeys) (he : c.email = email)
    (h : (c.run m).reply = .next wrongCredentials) :
    (c.run m).failedLoginAttempts.own email =
      some { count := (if (countOf m email).atLimit then .num 0 else countOf m email).succ,
             timestamp := c.failTime } := by
  subst he
  exact login_failed_record _ _ _ _ _ _ hk h

/-- A failing call made inside the window of a record with count `a` finds
that count below 5 and raises it by one. -/
theorem run_failed_within (c : LoginCall Payload) (m : Attempts) (email : String)
    (hk : email ∉ inheritedKeys) (he : c.email = email) (a : Nat) (ts : Int)
    (hown : m.own email = some { count := .num a, timestamp := ts })
    (hgap : c.currentTime - ts < window)
    (h : (c.run m).reply = .next wrongCredentials) :
    a < 5 ∧ (c.run m).failedLoginAttempts.own email =
      some { count := .num (a + 1), timestamp := c.failTime } := by
  have ha : a < 5 := by
    by_contra hge
    have hb := login_blocked c.checkLoginCredentials m email c.password c.currentTime
      c.failTime _ a (get_of_own m email _ hown) rfl (by omega) hgap
    subst he
    unfold LoginCall.run at h
    rw [hb] at h
    simp [tooManyAttempts, wrongCredentials] at h
  refine ⟨ha, ?_⟩
  rw [run_failed c m email hk he h, countOf_of_eq m email _ hown]
  have : ¬ 5 ≤ a := by omega
  simp [Count.atLimit, Count.succ, this]

/-- C1 (amended): for every email that does not name a property the lockout
object inherits (such as `constructor` or `__proto__`), starting from any
lockout map whose record for the email, if there is one, has a number as
count, after 5 consecutive login calls for that email whose credential check
fails (each answers with the wrong-credentials error), each made less than 30
minutes after the failure before it, any further login call for that email
whose clock reading is less than 30 minutes after the 5th failure is rejected
with the rate-limit error, for every password and every credential check; the
check is not consulted and the map is left as it was. -/
theorem lockout_block (m0 : Attempts) (email : String) (c1 c2 c3 c4 c5 : LoginCall Payload)
    (hkey : email ∉ inheritedKeys)
    (hnum : ∀ rec, m0.own email = some rec → rec.count ≠ .nan)
    (hemail : ∀ c ∈ [c1, c2, c3, c4, c5], c.email = email)
    (hfail : (loginSeq m0 [c1, c2, c3, c4, c5]).2 = List.replicate 5 (.next wrongCredentials))
    (hgap : c2.currentTime - c1.failTime < window ∧ c3.currentTime - c2.failTime < window ∧
      c4.currentTime - c3.failTime < window ∧ c5.currentTime - c4.failTime < window)
    (check : Check Payload) (password : String) (currentTime failTime : Int)
    (hnow : currentTime - c5.failTime < window) :
    login check (loginSeq m0 [c1, c2, c3, c4, c5]).1 email password currentTime failTime =
      { reply := .next tooManyAttempts,
        failedLoginAttempts := (loginSeq m0 [c1, c2, c3, c4, c5]).1,
        checked := [] } := by
  simp only [List.mem_cons, List.mem_singleton, List.not_mem_nil, or_false,
    forall_eq_or_imp, forall_eq] at hemail
  obtain ⟨e1, e2, e3, e4, e5⟩ := hemail
  simp only [loginSeq, List.replicate, List.cons.injEq, and_true] at hfail
  obtain ⟨f1, f2, f3, f4, f5⟩ := hfail
  obtain ⟨g2, g3, g4, g5⟩ := hgap
  obtain ⟨a1, r1⟩ : ∃ a1 : Nat, (c1.run m0).failedLoginAttempts.own email =
      some { count := .num (a1 + 1), timestamp := c1.failTime } := by
    have r := run_failed c1 m0 email hkey e1 f1
    cases hc : countOf m0 email with
    | nan =>
      exfalso
      unfold countOf at hc
      cases hm : m0.own email with
      | none => simp [hm] at hc
      | some rec =>
        simp only [hm] at hc
        exact hnum rec hm hc
    | num k =>
      rw [hc] at r
      by_cases h5 : 5 ≤ k
      · exact ⟨0, by simpa [Count.atLimit, Count.succ, h5] using r⟩
      · exact ⟨k, by simpa [Count.atLimit, Count.succ, h5] using r⟩
  obtain ⟨_, r2⟩ := run_failed_within c2 _ email hkey e2 _ _ r1 g2 f2
  obtain ⟨_, r3⟩ := run_failed_within c3 _ email hkey e3 _ _ r2 g3 f3
  obtain ⟨_, r4⟩ := run_failed_within c4 _ email hkey e4 _ _ r3 g4 f4
  obtain ⟨_, r5⟩ := run_failed_within c5 _ email hkey e5 _ _ r4 g5 f5
  simp only [loginSeq]
  exact login_blocked check _ email password currentTime failTime _ _
    (get_of_own _ _ _ r5) rfl (by omega) hnow

/-- Witness of `lockout_block`: five failures of `a@x.com` from the empty
object, then a call with an accepting check one millisecond later. -/
theorem lockout_block_witness :
    (loginSeq Attempts.empty (List.map failingCall [1, 2, 3, 4, 5])).2 =
        List.replicate 5 (.next wrongCredentials) ∧
      (login accepting (loginSeq Attempts.empty (List.map failingCall [1, 2, 3, 4, 5])).1
          "a@x.com" "secret" 6 6).reply = .next tooManyAttempts :=
  ⟨by decide,
   congrArg LoginResult.reply
    (lockout_block Attempts.empty "a@x.com" (failingCall 1) (failingCall 2) (failingCall 3)
     (failingCall 4) (failingCall 5) (by decide) (by intro rec h; cases h) (by decide)
     (by decide) (by decide) accepting "secret" 6 6 (by decide))⟩

/-- C1 as stated fails for an email that names an inherited property: from the
empty object, the read `failedLoginAttempts["constructor"]` finds the function
inherited from `Object.prototype`, so the first failure writes the count
`undefined + 1 = NaN`, no later comparison `NaN >= 5` holds, and after five
failures within five milliseconds the sixth call is let through to the
credential check. -/
theorem lockout_block_counterexample :
    ¬ (∀ (m0 : Attempts) (email : String) (c1 c2 c3 c4 c5 : LoginCall Nat),
        (∀ rec, m0.own email = some rec → rec.count ≠ .nan) →
        (∀ c ∈ [c1, c2, c3, c4, c5], c.email = email) →
        (loginSeq m0 [c1, c2, c3, c4, c5]).2 = List.replicate 5 (.next wrongCredentials) →
        (c2.currentTime - c1.failTime < window ∧ c3.currentTime - c2.failTime < window ∧
          c4.currentTime - c3.failTime < window ∧ c5.currentTime - c4.failTime < window) →
        ∀ (check : Check Nat) (password : String) (currentTime failTime : Int),
          currentTime - c5.failTime < window →
          (login check (loginSeq m0 [c1, c2, c3, c4, c5]).1 email password
              currentTime failTime).reply = .next tooManyAttempts ∧
            (login check (loginSeq m0 [c1, c2, c3, c4, c5]).1 email password
              currentTime failTime).checked = []) := by
  intro h
  have h6 := h Attempts.empty "constructor" (failingCallOf "constructor" 1)
    (failingCallOf "constructor" 2) (failingCallOf "constructor" 3)
    (failingCallOf "constructor" 4) (failingCallOf "constructor" 5)
    (by intro rec h; cases h) (by decide) (by decide) (by decide)
    accepting "secret" 6 6 (by decide)
  revert h6
  decide

/-- C2: when the record of an email has count at least 5 and the window has
elapsed at the clock reading `currentTime`, the call is not rate-limited: the
limit check resets the record to count 0 with timestamp `currentTime`, the
credential check is consulted once with the call's email and password, a
successful check returns the login payload and leaves no record for the email,
and a failed check answers with the wrong-credentials error and leaves the
record at count 1 with the clock reading taken at the failure. -/
theorem lockout_expiry (check : Check Payload) (m : Attempts) (email password : String)
    (currentTime failTime : Int) (rec : Attempt) (n : Nat)
    (hrec : m.own email = some rec) (hn : rec.count = .num n)
    (hcount : 5 ≤ n) (hexp : window ≤ currentTime - rec.timestamp) :
    limitCheck m email currentTime =
        .ok (m.set email { count := .num 0, timestamp := currentTime }) ∧
      (login check m email password currentTime failTime).reply ≠ .next tooManyAttempts ∧
      (login check m email password currentTime failTime).checked = [(email, password)] ∧
      (∀ payload, check email password = .ok (some payload) →
        (login check m email password currentTime failTime).reply = .json 200 payload ∧
        (login check m email password currentTime failTime).failedLoginAttempts.own email
          = none) ∧
      (check email password = .ok none →
        (login check m email password currentTime failTime).reply = .next wrongCredentials ∧
        (login check m email password currentTime failTime).failedLoginAttempts.own email =
          some { count := .num 1, timestamp := failTime }) := by
  have hw : ¬ currentTime - rec.timestamp < window := not_lt.mpr hexp
  have h5 : rec.count.atLimit = true := by simp [hn, Count.atLimit, hcount]
  have hl : limitCheck m email currentTime =
      .ok (m.set email { count := .num 0, timestamp := currentTime }) := by
    simp [limitCheck, get_of_own m email rec hrec, h5, hw]
  have hsome : m.own email ≠ none := by simp [hrec]
  have hown1 : (m.set email { count := .num 0, timestamp := currentTime }).own email =
      some { count := .num 0, timestamp := currentTime } :=
    own_set_self _ _ _ (Or.inr hsome)
  have hget1 := get_of_own _ _ _ hown1
  refine ⟨hl, ?_, ?_, ?_, ?_⟩
  · rcases hc : check email password with e | (_ | p) <;>
      simp [login, hl, hc, wrongCredentials, tooManyAttempts]
  · rcases hc : check email password with e | (_ | p) <;> simp [login, hl, hc]
  · intro payload hc
    simp [login, hl, hc, hget1, Lookup.truthy, own_delete_self]
  · intro hc
    have hsome1 : (m.set email { count := .num 0, timestamp := currentTime }).own email
        ≠ none := by simp [hown1]
    simp [login, hl, hc, hget1, nextCount, Count.succ, own_set_self _ _ _ (Or.inr hsome1)]

/-- Witness of `lockout_expiry`: the block of `a@x.com` that began at time 0,
at the first instant after the window, with a rejecting check. -/
theorem lockout_expiry_witness :
    (login rejecting blocked "a@x.com" "guess" 1800000 1800001).reply =
        .next wrongCredentials ∧
      (login rejecting blocked "a@x.com" "guess" 1800000 1800001).failedLoginAttempts.own
          "a@x.com" = some { count := .num 1, timestamp := 1800001 } :=
  (lockout_expiry rejecting blocked "a@x.com" "guess" 1800000 1800001
    { count := .num 5, timestamp := 0 } 5 (by decide) rfl (by decide) (by decide)).2.2.2.2 rfl

/-- Without an own record under an ordinary key, a call whose check fails
answers with the wrong-credentials error and creates the record with count 1. -/
theorem login_failed_of_none (check : Check Payload) (m : Attempts) (email password : String)
    (currentTime failTime : Int) (hk : email ∉ inheritedKeys) (hm : m.own email = none)
    (hc : check email password = .ok none) :
    (login check m email password currentTime failTime).reply = .next wrongCredentials ∧
      (login check m email password currentTime failTime).failedLoginAttempts.own email =
        some { count := .num 1, timestamp := failTime } := by
  have hg := get_ordinary_none m email hk hm
  have hl : limitCheck m email currentTime = .ok m := by simp [limitCheck, hg]
  have hne := ne_proto_of_ordinary email hk
  constructor
  · simp [login, hl, hc]
  · simp [login, hl, hc, hg, nextCount, own_set_self _ _ _ (Or.inl hne)]

/-- C3 (amended): for every email that does not name a property the lockout
object inherits, and every record that does not block the call (no record, a
count below 5, or an elapsed window), a login call whose credential check
succeeds returns the payload and deletes the record of the email, so that a
read of the email finds nothing, and the next login call for that email whose
check fails leaves the record with count exactly 1, whatever the count was
before the success. -/
theorem lockout_reset_on_success (check : Check Payload) (m : Attempts)
    (email password : String) (currentTime failTime : Int) (payload : Payload)
    (hkey : email ∉ inheritedKeys)
    (hfree : ∀ rec, m.own email = some rec →
      rec.count.atLimit = false ∨ window ≤ currentTime - rec.timestamp)
    (hok : check email password = .ok (some payload)) :
    (login check m email password currentTime failTime).reply = .json 200 payload ∧
      (login check m email password currentTime failTime).failedLoginAttempts.own email
        = none ∧
      (login check m email password currentTime failTime).failedLoginAttempts.get email
        = .undefined ∧
      ∀ (check2 : Check Payload) (password2 : String) (currentTime2 failTime2 : Int),
        check2 email password2 = .ok none →
        (login check2 (login check m email password currentTime failTime).failedLoginAttempts
            email password2 currentTime2 failTime2).reply = .next wrongCredentials ∧
          (login check2 (login check m email password currentTime failTime).failedLoginAttempts
            email password2 currentTime2 failTime2).failedLoginAttempts.own email =
            some { count := .num 1, timestamp := failTime2 } := by
  obtain ⟨m1, hl⟩ : ∃ m1, limitCheck m email currentTime = .ok m1 := by
    unfold limitCheck
    rw [get_ordinary m email hkey]
    cases hm : m.own email with
    | none => exact ⟨m, rfl⟩
    | some rec =>
      by_cases h5 : rec.count.atLimit = true
      · rcases hfree rec hm with h | h
        · rw [h] at h5
          cases h5
        · have hw : ¬ currentTime - rec.timestamp < window := not_lt.mpr h
          exact ⟨m.set email { count := .num 0, timestamp := currentTime }, by simp [h5, hw]⟩
      · exact ⟨m, by simp [h5]⟩
  have hnone : (login check m email password currentTime failTime).failedLoginAttempts.own email
      = none := by
    simp only [login, hl, hok]
    by_cases ht : (m1.get email).truthy = true
    · simp [ht, own_delete_self]
    · simp only [ht]
      rw [get_ordinary m1 email hkey] at ht
      cases hm1 : m1.own email with
      | none => exact hm1
      | some rec => simp [hm1, Lookup.truthy] at ht
  refine ⟨by simp [login, hl, hok], hnone, get_ordinary_none _ email hkey hnone, ?_⟩
  intro check2 password2 currentTime2 failTime2 hc2
  exact login_failed_of_none check2 _ email password2 currentTime2 failTime2 hkey hnone hc2

/-- Witness of `lockout_reset_on_success`: four recorded failures of `a@x.com`,
a success, then a failure. -/
theorem lockout_reset_on_success_witness :
    (login accepting (loginSeq Attempts.empty (List.map failingCall [1, 2, 3, 4])).1
        "a@x.com" "secret" 5 5).failedLoginAttempts.own "a@x.com" = none ∧
      (login rejecting
        (login accepting (loginSeq Attempts.empty (List.map failingCall [1, 2, 3, 4])).1
          "a@x.com" "secret" 5 5).failedLoginAttempts
        "a@x.com" "guess" 6 7).failedLoginAttempts.own "a@x.com" =
        some { count := .num 1, timestamp := 7 } :=
  have h := lockout_reset_on_success accepting
    (loginSeq Attempts.empty (List.map failingCall [1, 2, 3, 4])).1 "a@x.com" "secret" 5 5 7
    (by decide)
    (by intro rec hrec
        have h4 : (loginSeq Attempts.empty (List.map failingCall [1, 2, 3, 4])).1.own "a@x.com"
            = some { count := .num 4, timestamp := 4 } := by decide
        rw [h4] at hrec
        cases hrec
        exact Or.inl (by decide))
    rfl
  ⟨h.2.1, (h.2.2.2 rejecting "guess" 6 7 rfl).2⟩

/-- C3 as stated fails for an email that names an inherited property: for
`constructor` on the empty object the successful call deletes nothing, the read
after it still finds the function inherited from `Object.prototype`, and the
next failure writes the count `undefined + 1 = NaN`, not 1. -/
theorem lockout_reset_on_success_counterexample :
    ¬ (∀ (check : Check Nat) (m : Attempts) (email password : String)
        (currentTime failTime : Int) (payload : Nat),
        (∀ rec, m.own email = some rec →
          rec.count.atLimit = false ∨ window ≤ currentTime - rec.timestamp) →
        check email password = .ok (some payload) →
        ∀ (check2 : Check Nat) (password2 : String) (currentTime2 failTime2 : Int),
          check2 email password2 = .ok none →
          (login check2 (login check m email password currentTime failTime).failedLoginAttempts
            email password2 currentTime2 failTime2).failedLoginAttempts.get email =
            .record { count := .num 1, timestamp := failTime2 }) := by
  intro h
  have h1 := h accepting Attempts.empty "constructor" "secret" 1 1 7
    (by intro rec h; cases h) rfl rejecting "guess" 2 2 rfl
  revert h1
  decide

/-- C11 (amended): for every email whose lockout record is at or over the
threshold (count at least 5) and still inside the window, a new login attempt
is rejected with the rate-limit error before the credential check and leaves
the record as it was (the timestamp is not updated), so the block is not
extended: a later attempt is rejected exactly when it is made less than 30
minutes after the timestamp of the record, which is the time of the last
failure that reached the credential check. -/
theorem blocked_attempt_keeps_window (check : Check Payload) (m : Attempts)
    (email password : String) (currentTime failTime : Int) (rec : Attempt) (n : Nat)
    (hrec : m.get email = .record rec) (hn : rec.count = .num n) (hcount : 5 ≤ n)
    (hwin : currentTime - rec.timestamp < window) :
    (login check m email password currentTime failTime).reply = .next tooManyAttempts ∧
      (login check m email password currentTime failTime).checked = [] ∧
      (login check m email password currentTime failTime).failedLoginAttempts = m ∧
      (login check m email password currentTime failTime).failedLoginAttempts.get email
        = .record rec ∧
      ∀ (check2 : Check Payload) (password2 : String) (currentTime2 failTime2 : Int),
        (login check2 (login check m email password currentTime failTime).failedLoginAttempts
            email password2 currentTime2 failTime2).reply = .next tooManyAttempts ↔
          currentTime2 - rec.timestamp < window := by
  have hb := login_blocked check m email password currentTime failTime rec n hrec hn hcount hwin
  rw [hb]
  refine ⟨rfl, rfl, rfl, hrec, ?_⟩
  intro check2 password2 currentTime2 failTime2
  rw [reply_blocked_iff]
  exact limitCheck_error_iff m email currentTime2 rec n hrec hn hcount

/-- Witness of `blocked_attempt_keeps_window`: the block of `a@x.com` that
began at time 0, an attempt at time 10. -/
theorem blocked_attempt_keeps_window_witness :
    (login rejecting blocked "a@x.com" "guess" 10 10).reply = .next tooManyAttempts ∧
      (login rejecting blocked "a@x.com" "guess" 10 10).failedLoginAttempts.get "a@x.com" =
        .record { count := .num 5, timestamp := 0 } :=
  have h := blocked_attempt_keeps_window rejecting blocked "a@x.com" "guess" 10 10
    { count := .num 5, timestamp := 0 } 5 (by decide) rfl (by decide) (by decide)
  ⟨h.1, h.2.2.2.1⟩

/-- C11 as stated fails: an attempt with wrong credentials made at time 10
inside the block that began at time 0 does not set the timestamp to 10, and an
attempt at time 1800005, less than 30 minutes after the one at time 10, is let
through to the credential check. -/
theorem blocked_attempt_counterexample :
    ¬ (∀ (check : Check Nat) (m : Attempts) (email password : String) (now : Int)
        (rec : Attempt) (n : Nat),
        m.get email = .record rec → rec.count = .num n → 5 ≤ n →
        now - rec.timestamp < window →
        check email password = .ok none →
        (∃ r, (login check m email password now now).failedLoginAttempts.get email
            = .record r ∧ r.timestamp = now) ∧
        ∀ (check2 : Check Nat) (password2 : String) (now2 : Int), now2 - now < window →
          (login check2 (login check m email password now now).failedLoginAttempts
            email password2 now2 now2).reply = .next tooManyAttempts) := by
  intro h
  have h1 := (h rejecting blocked "a@x.com" "guess" 10 { count := .num 5, timestamp := 0 } 5
    (by decide) rfl (by decide) (by decide) rfl).2 accepting "secret" 1800005 (by decide)
  revert h1
  decide

/-- The limit check touches no own property other than that of the email. -/
theorem limitCheck_own_other (m m1 : Attempts) (email : String) (currentTime : Int)
    (h : limitCheck m email currentTime = .ok m1) (k : String) (hk : k ≠ email) :
    m1.own k = m.own k := by
  unfold limitCheck at h
  split at h
  · split at h
    · split at h
      · cases h
      · cases h
        exact own_set_other _ _ _ _ hk
    · cases h
      rfl
  · cases h
    rfl
  · cases h
    rfl

/-- A call of `login` touches no own property other than that of its email. -/
theorem login_own_other (check : Check Payload) (m : Attempts) (email password : String)
    (currentTime failTime : Int) (k : String) (hk : k ≠ email) :
    (login check m email password currentTime failTime).failedLoginAttempts.own k = m.own k := by
  rcases hl : limitCheck m email currentTime with e | m1
  · simp [login, hl]
  · have h1 := limitCheck_own_other m m1 email currentTime hl k hk
    rcases hc : check email password with e | (_ | p)
    · simp [login, hl, hc, h1]
    · simp [login, hl, hc, own_set_other _ _ _ _ hk, h1]
    · simp only [login, hl, hc]
      split
      · rw [own_delete_other _ _ _ hk, h1]
      · exact h1

/-- A call of `login` leaves what a read finds under every ordinary key other
than its email. -/
theorem login_get_other (check : Check Payload) (m : Attempts) (email password : String)
    (currentTime failTime : Int) (k : String) (hk : k ≠ email) (hord : k ∉ inheritedKeys) :
    (login check m email password currentTime failTime).failedLoginAttempts.get k = m.get k := by
  rw [get_ordinary _ k hord, get_ordinary m k hord,
    login_own_other check m email password currentTime failTime k hk]

/-- A call of `login` keeps the counter of every record under an ordinary key a
number of at most 5. -/
theorem login_count_le (check : Check Payload) (m : Attempts) (email password : String)
    (currentTime failTime : Int)
    (hinv : ∀ e rec, e ∉ inheritedKeys → m.own e = some rec →
      ∃ n, rec.count = .num n ∧ n ≤ 5) :
    ∀ e rec, e ∉ inheritedKeys →
      (login check m email password currentTime failTime).failedLoginAttempts.own e = some rec →
      ∃ n, rec.count = .num n ∧ n ≤ 5 := by
  intro e r hord hr
  by_cases he : e = email
  · subst he
    rcases hl : limitCheck m e currentTime with err | m1
    · simp only [login, hl] at hr
      exact hinv e r hord hr
    · obtain ⟨_, _, hcase⟩ := limitCheck_ok_ordinary m m1 e currentTime hord hl
      have hm1 : ∀ rec, m1.own e = some rec → ∃ n, rec.count = .num n ∧ n ≤ 4 := by
        intro rec hrec
        rcases hcase with ⟨rfl, hlow⟩ | ⟨hown, _⟩
        · obtain ⟨n, hn, _⟩ := hinv e rec hord hrec
          have := hlow rec hrec
          rw [hn] at this
          refine ⟨n, hn, ?_⟩
          simp [Count.atLimit] at this
          omega
        · rw [hown] at hrec
          cases hrec
          exact ⟨0, rfl, by omega⟩
      rcases hc : check e password with err | (_ | p)
      · simp only [login, hl, hc] at hr
        obtain ⟨n, hn, hle⟩ := hm1 r hr
        exact ⟨n, hn, by omega⟩
      · simp only [login, hl, hc, own_set_self _ _ _ (Or.inl (ne_proto_of_ordinary e hord)),
          Option.some.injEq] at hr
        subst hr
        rw [get_ordinary m1 e hord]
        cases hown : m1.own e with
        | none => exact ⟨1, rfl, by omega⟩
        | some rec =>
          obtain ⟨n, hn, hle⟩ := hm1 rec hown
          exact ⟨n + 1, by simp [nextCount, hn, Count.succ], by omega⟩
      · simp only [login, hl, hc] at hr
        split at hr
        · simp [own_delete_self] at hr
        · obtain ⟨n, hn, hle⟩ := hm1 r hr
          exact ⟨n, hn, by omega⟩
  · rw [login_own_other check m email password currentTime failTime e he] at hr
    exact hinv e r hord hr

/-- Calls made one after the other keep the counter of every record under an
ordinary key a number of at most 5. -/
theorem loginSeq_count_le (calls : List (LoginCall Payload)) (m : Attempts)
    (hinv : ∀ e rec, e ∉ inheritedKeys → m.own e = some rec →
      ∃ n, rec.count = .num n ∧ n ≤ 5) :
    ∀ e rec, e ∉ inheritedKeys → (loginSeq m calls).1.own e = some rec →
      ∃ n, rec.count = .num n ∧ n ≤ 5 := by
  induction calls generalizing m with
  | nil => exact hinv
  | cons c cs ih =>
    simp only [loginSeq]
    exact ih _ (login_count_le _ m _ _ _ _ hinv)

/-- C13 (amended): starting from the empty lockout map, after any sequence of
login calls made one after the other, with arbitrary emails, passwords, clock
readings and credential checks, every record present under a key that does not
name an inherited property has a number between 0 and 5 as count; a call
answered with the rate-limit error leaves the whole map unchanged; and a call
leaves the own record of every key other than its own email as it was, and
with it what a read finds under every such key that does not name an inherited
property, keys being compared as raw strings. -/
theorem counter_bound (calls : List (LoginCall Payload)) :
    (∀ e rec, e ∉ inheritedKeys → (loginSeq Attempts.empty calls).1.own e = some rec →
        ∃ n, rec.count = .num n ∧ 0 ≤ n ∧ n ≤ 5) ∧
      (∀ (m : Attempts) (c : LoginCall Payload), (c.run m).reply = .next tooManyAttempts →
        (c.run m).failedLoginAttempts = m) ∧
      (∀ (m : Attempts) (c : LoginCall Payload) (k : String), k ≠ c.email →
        (c.run m).failedLoginAttempts.own k = m.own k) ∧
      (∀ (m : Attempts) (c : LoginCall Payload) (k : String), k ≠ c.email →
        k ∉ inheritedKeys → (c.run m).failedLoginAttempts.get k = m.get k) := by
  refine ⟨?_, ?_, ?_, ?_⟩
  · intro e r hord hr
    obtain ⟨n, hn, hle⟩ := loginSeq_count_le calls Attempts.empty
      (by intro e rec _ h; cases h) e r hord hr
    exact ⟨n, hn, Nat.zero_le _, hle⟩
  · intro m c h
    exact (blocked_unchanged _ m _ _ _ _ h).1
  · intro m c k hk
    exact login_own_other _ m _ _ _ _ k hk
  · intro m c k hk hord
    exact login_get_other _ m _ _ _ _ k hk hord

/-- Witness of `counter_bound`: six failing calls for `a@x.com`, the sixth
inside the block, leave its counter at 5 and no record for `A@x.com`. -/
theorem counter_bound_witness :
    (loginSeq Attempts.empty (List.map failingCall [1, 2, 3, 4, 5, 6])).1.own "a@x.com" =
        some { count := .num 5, timestamp := 5 } ∧
      (∃ n, Count.num 5 = .num n ∧ 0 ≤ n ∧ n ≤ 5) ∧
      ((failingCall 6).run (loginSeq Attempts.empty (List.map failingCall [1, 2, 3, 4, 5])).1
        ).failedLoginAttempts.get "A@x.com" =
        (loginSeq Attempts.empty (List.map failingCall [1, 2, 3, 4, 5])).1.get "A@x.com" :=
  have h := counter_bound (List.map failingCall [1, 2, 3, 4, 5, 6])
  have hrec : (loginSeq Attempts.empty (List.map failingCall [1, 2, 3, 4, 5, 6])).1.own
      "a@x.com" = some { count := .num 5, timestamp := 5 } := by decide
  ⟨hrec, h.1 "a@x.com" { count := .num 5, timestamp := 5 } (by decide) hrec,
   h.2.2.2 _ (failingCall 6) "A@x.com" (by decide) (by decide)⟩

/-- A failing call for `__proto__` makes its record the prototype of the
object, so that a read of the other key `timestamp`, which found nothing
before, finds the number of that record. -/
theorem proto_call_changes_read :
    Attempts.empty.get "timestamp" = .undefined ∧
      ((failingCallOf "__proto__" 3).run Attempts.empty).failedLoginAttempts.get "timestamp"
        = .other true ∧
      ((failingCallOf "__proto__" 3).run Attempts.empty).failedLoginAttempts.proto
        = some { count := .nan, timestamp := 3 } := by
  decide

/-- C13 as stated fails for emails that name inherited properties: one failing
call for `constructor` from the empty object finds the function inherited from
`Object.prototype` and leaves a record whose count is `undefined + 1 = NaN`,
not a number between 0 and 5. -/
theorem counter_bound_counterexample :
    ¬ (∀ calls : List (LoginCall Nat),
        (∀ e rec, (loginSeq Attempts.empty calls).1.own e = some rec →
          ∃ n, rec.count = .num n ∧ 0 ≤ n ∧ n ≤ 5) ∧
        (∀ (m : Attempts) (c : LoginCall Nat), (c.run m).reply = .next tooManyAttempts →
          (c.run m).failedLoginAttempts = m) ∧
        (∀ (m : Attempts) (c : LoginCall Nat) (k : String), k ≠ c.email →
          (c.run m).failedLoginAttempts.get k = m.get k)) := by
  intro h
  have h1 := (h [failingCallOf "constructor" 1]).1 "constructor"
    { count := .nan, timestamp := 1 } (by decide)
  obtain ⟨n, hn, _⟩ := h1
  cases hn

end Authentication

/-! ## Theorems: string and array primitives -/

namespace Users

/-- `includesChars` decides containment as a contiguous run. -/
theorem includesChars_iff (s t : List Char) : includesChars s t = true ↔ t <:+: s := by
  induction s with
  | nil => simp [includesChars, List.isEmpty_iff]
  | cons c s ih =>
    simp only [includesChars, Bool.or_eq_true, ih, List.isPrefixOf_iff_prefix]
    exact List.infix_cons_iff.symm

/-- `includes` holds exactly when the characters of `t` occur in `s` as a
contiguous run. -/
theorem includes_iff (s t : String) : includes s t = true ↔ t.data <:+: s.data :=
  includesChars_iff s.data t.data

theorem includesChars_singleton (s : List Char) (c : Char) :
    includesChars s [c] = true ↔ c ∈ s := by
  rw [includesChars_iff]
  constructor
  · intro h
    exact h.subset (List.mem_singleton_self c)
  · intro h
    obtain ⟨a, b, rfl⟩ := List.append_of_mem h
    exact ⟨a, b, by simp⟩

theorem toLower_eq_colon (c : Char) (h : c.toLower = ':') : c = ':' := by
  unfold Char.toLower at h
  by_cases hr : c.toNat ≥ 65 ∧ c.toNat ≤ 90
  · exfalso
    simp only [hr, and_self, if_true] at h
    obtain ⟨h1, h2⟩ := hr
    have h3 := congrArg Char.toNat h
    generalize c.toNat = n at h1 h2 h3
    interval_cases n <;> revert h3 <;> decide
  · simpa [hr] using h

theorem asciiLowerCase_append (a b : String) :
    asciiLowerCase (a ++ b) = asciiLowerCase a ++ asciiLowerCase b := by
  apply String.ext
  simp [asciiLowerCase, String.data_append]

theorem colon_not_mem_asciiLowerCase (s : String) (h : ':' ∉ s.data) :
    ':' ∉ (asciiLowerCase s).data := by
  intro hmem
  simp only [asciiLowerCase, List.mem_map] at hmem
  obtain ⟨c, hc, hcl⟩ := hmem
  exact h (toLower_eq_colon c hcl ▸ hc)

/-- The instance `asciiLowerCase` lower-cases a search `f:x` piece by piece and
keeps a colon-free term colon-free. -/
theorem asciiLowerCase_query (f x : String) (hx : ':' ∉ x.data) :
    asciiLowerCase (f ++ x) = asciiLowerCase f ++ asciiLowerCase x ∧
      ':' ∉ (asciiLowerCase x).data :=
  ⟨asciiLowerCase_append f x, colon_not_mem_asciiLowerCase x hx⟩

theorem isAscii_append (a b : String) (ha : isAscii a = true) (hb : isAscii b = true) :
    isAscii (a ++ b) = true := by
  simp only [isAscii, String.data_append, List.all_append, Bool.and_eq_true] at ha hb ⊢
  exact ⟨ha, hb⟩

/-- For a `toLowerCase` that acts on ASCII strings as `asciiLowerCase` does, a
search `f` followed by a colon-free ASCII term `x` is lower-cased piece by
piece, when `f` is ASCII and already in lower case, and the lower-cased term is
colon-free. -/
theorem query_of_ascii (toLowerCase : String → String)
    (hascii : ∀ s, isAscii s = true → toLowerCase s = asciiLowerCase s)
    (f x : String) (hf : isAscii f = true) (hlow : asciiLowerCase f = f)
    (hx : isAscii x = true) (hcolon : ':' ∉ x.data) :
    toLowerCase (f ++ x) = f ++ toLowerCase x ∧ ':' ∉ (toLowerCase x).data := by
  rw [hascii _ (isAscii_append f x hf hx), hascii x hx, asciiLowerCase_append, hlow]
  exact ⟨rfl, colon_not_mem_asciiLowerCase x hcolon⟩

theorem splitChars_ne_nil (sep : Char) (l : List Char) : splitChars sep l ≠ [] := by
  induction l with
  | nil => simp [splitChars]
  | cons c cs ih =>
    unfold splitChars
    split
    · simp
    · split <;> simp

theorem splitChars_of_not_mem (sep : Char) (l : List Char) (h : sep ∉ l) :
    splitChars sep l = [l] := by
  induction l with
  | nil => rfl
  | cons c cs ih =>
    have hc : c ≠ sep := fun e => h (e ▸ List.mem_cons_self _ _)
    have hcs : sep ∉ cs := fun e => h (List.mem_cons_of_mem _ e)
    simp [splitChars, hc, ih hcs]

theorem splitChars_append_sep (sep : Char) (a b : List Char) (h : sep ∉ a) :
    splitChars sep (a ++ sep :: b) = a :: splitChars sep b := by
  induction a with
  | nil => simp [splitChars]
  | cons c cs ih =>
    have hc : c ≠ sep := fun e => h (e ▸ List.mem_cons_self _ _)
    have hcs : sep ∉ cs := fun e => h (List.mem_cons_of_mem _ e)
    simp [splitChars, hc, ih hcs]

theorem mem_of_splitChars (sep : Char) (l a b : List Char) (rest : List (List Char))
    (h : splitChars sep l = a :: b :: rest) : sep ∈ l := by
  by_contra hmem
  rw [splitChars_of_not_mem sep l hmem] at h
  simp at h

/-- A string that splits into two pieces or more contains the separator. -/
theorem includes_colon_of_split (s field term : String) (rest : List String)
    (h : split s ':' = field :: term :: rest) : includes s ":" = true := by
  unfold includes
  have hc : (":" : String).data = [':'] := rfl
  rw [hc, includesChars_singleton]
  unfold split at h
  cases hs : splitChars ':' s.data with
  | nil => simp [hs] at h
  | cons a t =>
    cases t with
    | nil => simp [hs] at h
    | cons b r => exact mem_of_splitChars ':' s.data a b r hs

/-- The pieces of `field:term` when neither part contains a colon. -/
theorem split_field_term (field term : String) (hf : ':' ∉ field.data)
    (ht : ':' ∉ term.data) : split (field ++ ":" ++ term) ':' = [field, term] := by
  unfold split
  have h : (field ++ ":" ++ term).data = field.data ++ ':' :: term.data := by
    simp [String.data_append]
  rw [h, splitChars_append_sep _ _ _ hf, splitChars_of_not_mem _ _ ht]
  rfl

/-- The filter callback on a search whose lower-cased form splits at its colons
into a field, a term and possibly more: the field selects the attribute, and
the attribute, lower-cased, is searched for the term. -/
theorem matchesSearch_of_split (toLowerCase : String → String) (searchQuery : String)
    (user : User) (field term : String) (rest : List String)
    (hs : split (toLowerCase searchQuery) ':' = field :: term :: rest) :
    matchesSearch toLowerCase searchQuery user =
      if field = "email" then includes (toLowerCase user.email) term
      else if field = "name" then includes (toLowerCase user.name) term
      else false := by
  unfold matchesSearch
  simp only [includes_colon_of_split _ field term rest hs, if_true, hs]

theorem slice_sublist {α : Type} (l : List α) (start stop : Int) :
    List.Sublist (slice l start stop) l :=
  (List.drop_sublist _ _).trans (List.take_sublist _ _)

/-- The sorted list is a rearrangement of the filtered list. -/
theorem sortedList_perm (localeCompare : String → String → Int) (filtered : List User)
    (sorting : Option String) : List.Perm (sortedList localeCompare filtered sorting) filtered := by
  unfold sortedList
  split
  · exact List.Perm.refl _
  · split
    · exact List.Perm.refl _
    · split
      · exact List.perm_insertionSort _ _
      · exact List.Perm.refl _

theorem toNumber_of_falsy (limit : Option Int) (h : truthy limit = false) :
    toNumber limit = 0 := by
  cases limit with
  | none => rfl
  | some n => simpa [truthy, toNumber] using h

theorem relativeIndex_of_nonneg (len : Nat) (i : Int) (h : 0 ≤ i) :
    relativeIndex len i = min i.toNat len := by
  simp [relativeIndex, not_lt.mpr h]

theorem relativeIndex_zero (len : Nat) : relativeIndex len 0 = 0 := by
  simp [relativeIndex]

theorem relativeIndex_length (len : Nat) : relativeIndex len (len : Int) = len := by
  rw [relativeIndex_of_nonneg _ _ (Int.natCast_nonneg len)]
  simp

/-- With a falsy `limit` the page is the whole sorted list, for every `page`. -/
theorem paginatedList_of_falsy (sorted : List User) (page : Int) (limit : Option Int)
    (h : truthy limit = false) : paginatedList sorted page limit = sorted := by
  simp [paginatedList, startIndex, endIndex, h, toNumber_of_falsy limit h, slice,
    relativeIndex_zero, relativeIndex_length]

/-- Every element of `data` is the projection of a snapshot record that passed
the filter. -/
theorem mem_data (toLowerCase : String → String)
    (localeCompare : String → String → Int) (userList : List User)
    (page : Int) (limit : Option Int) (searchQuery : String) (sorting : Option String)
    (d : FormattedUser)
    (h : d ∈ (getUsers toLowerCase localeCompare userList page limit searchQuery sorting).data) :
    ∃ u ∈ userList, matchesSearch toLowerCase searchQuery u = true ∧ d = format u := by
  simp only [getUsers, List.mem_map] at h
  obtain ⟨u, hu, rfl⟩ := h
  have h1 : u ∈ sortedList localeCompare (filteredList toLowerCase userList searchQuery) sorting :=
    (slice_sublist _ _ _).subset hu
  have h2 : u ∈ filteredList toLowerCase userList searchQuery := (sortedList_perm _ _ _).subset h1
  simp only [filteredList, List.mem_filter] at h2
  exact ⟨u, h2.1, h2.2, rfl⟩

/-- With a falsy `limit`, `data` is a rearrangement of the projections of the
records that passed the filter. -/
theorem data_perm_of_falsy (toLowerCase : String → String)
    (localeCompare : String → String → Int) (userList : List User)
    (page : Int) (limit : Option Int) (hl : truthy limit = false) (searchQuery : String)
    (sorting : Option String) :
    List.Perm (getUsers toLowerCase localeCompare userList page limit searchQuery sorting).data
      ((filteredList toLowerCase userList searchQuery).map format) := by
  simp only [getUsers, paginatedList_of_falsy _ _ _ hl]
  exact (sortedList_perm _ _ _).map format

theorem matchesSearch_email (toLowerCase : String → String) (x : String)
    (hE : toLowerCase ("email:" ++ x) = "email:" ++ toLowerCase x)
    (hX : ':' ∉ (toLowerCase x).data) (user : User) :
    matchesSearch toLowerCase ("email:" ++ x) user =
      includes (toLowerCase user.email) (toLowerCase x) := by
  have hs : split (toLowerCase ("email:" ++ x)) ':' = ["email", toLowerCase x] := by
    rw [hE]
    exact split_field_term "email" (toLowerCase x) (by decide) hX
  rw [matchesSearch_of_split toLowerCase _ user _ _ _ hs]
  simp

theorem matchesSearch_name (toLowerCase : String → String) (x : String)
    (hN : toLowerCase ("name:" ++ x) = "name:" ++ toLowerCase x)
    (hX : ':' ∉ (toLowerCase x).data) (user : User) :
    matchesSearch toLowerCase ("name:" ++ x) user =
      includes (toLowerCase user.name) (toLowerCase x) := by
  have hs : split (toLowerCase ("name:" ++ x)) ':' = ["name", toLowerCase x] := by
    rw [hN]
    exact split_field_term "name" (toLowerCase x) (by decide) hX
  rw [matchesSearch_of_split toLowerCase _ user _ _ _ hs]
  simp

end Users

/-! ## Theorems: `getUsers` -/

namespace Users

/-- C4 (amended): for every snapshot and every term `x` for which
`toLowerCase` turns the search `email:x` (resp. `name:x`) into `email:`
(resp. `name:`) followed by `x` lower-cased, itself colon-free (as for every
colon-free term of ASCII characters), with that search and no page size `data`
holds exactly the projections of the snapshot records whose email (resp. name),
lower-cased, contains `x` lower-cased (as a rearrangement of that list, so none
is missing and none is added); with any page size every returned record still
matches; and for every search whose lower-cased form contains a colon and
whose field, the part of that form before its first colon, is neither `name`
nor `email`, `data` is empty (the function returns a listing, it has no failing
path). -/
theorem field_search (toLowerCase : String → String) (localeCompare : String → String → Int)
    (userList : List User) (x : String)
    (hE : toLowerCase ("email:" ++ x) = "email:" ++ toLowerCase x)
    (hN : toLowerCase ("name:" ++ x) = "name:" ++ toLowerCase x)
    (hX : ':' ∉ (toLowerCase x).data)
    (page : Int) (limit : Option Int) (sorting : Option String) :
    List.Perm
        (getUsers toLowerCase localeCompare userList page none ("email:" ++ x) sorting).data
        ((userList.filter fun u => includes (toLowerCase u.email) (toLowerCase x)).map format) ∧
      (∀ d ∈ (getUsers toLowerCase localeCompare userList page limit ("email:" ++ x)
          sorting).data,
        includes (toLowerCase d.email) (toLowerCase x) = true) ∧
      List.Perm
        (getUsers toLowerCase localeCompare userList page none ("name:" ++ x) sorting).data
        ((userList.filter fun u => includes (toLowerCase u.name) (toLowerCase x)).map format) ∧
      (∀ d ∈ (getUsers toLowerCase localeCompare userList page limit ("name:" ++ x)
          sorting).data,
        includes (toLowerCase d.name) (toLowerCase x) = true) ∧
      (∀ (searchQuery field term : String) (rest : List String),
        split (toLowerCase searchQuery) ':' = field :: term :: rest →
        field ≠ "name" → field ≠ "email" →
        (getUsers toLowerCase localeCompare userList page limit searchQuery sorting).data
          = []) := by
  have he : matchesSearch toLowerCase ("email:" ++ x) =
      fun u => includes (toLowerCase u.email) (toLowerCase x) :=
    funext (matchesSearch_email toLowerCase x hE hX)
  have hn : matchesSearch toLowerCase ("name:" ++ x) =
      fun u => includes (toLowerCase u.name) (toLowerCase x) :=
    funext (matchesSearch_name toLowerCase x hN hX)
  refine ⟨?_, ?_, ?_, ?_, ?_⟩
  · have h := data_perm_of_falsy toLowerCase localeCompare userList page none rfl
      ("email:" ++ x) sorting
    rw [filteredList, he] at h
    exact h
  · intro d hd
    obtain ⟨u, _, hm, rfl⟩ := mem_data _ _ _ _ _ _ _ d hd
    rw [matchesSearch_email toLowerCase x hE hX] at hm
    exact hm
  · have h := data_perm_of_falsy toLowerCase localeCompare userList page none rfl
      ("name:" ++ x) sorting
    rw [filteredList, hn] at h
    exact h
  · intro d hd
    obtain ⟨u, _, hm, rfl⟩ := mem_data _ _ _ _ _ _ _ d hd
    rw [matchesSearch_name toLowerCase x hN hX] at hm
    exact hm
  · intro searchQuery field term rest hs h1 h2
    apply List.eq_nil_iff_forall_not_mem.mpr
    intro d hd
    obtain ⟨u, _, hm, _⟩ := mem_data _ _ _ _ _ _ _ d hd
    rw [matchesSearch_of_split toLowerCase searchQuery u field term rest hs, if_neg h2,
      if_neg h1] at hm
    exact Bool.false_ne_true hm

/-- Witness of `field_search`: the listing scenario, search `name:bob`, with
the ASCII instance of `toLowerCase`. -/
theorem field_search_witness :
    asciiLowerCase ("name:" ++ "bob") = "name:" ++ asciiLowerCase "bob" ∧
      ':' ∉ (asciiLowerCase "bob").data ∧
      List.Perm
        (getUsers asciiLowerCase codePointCompare [ann, bob] 1 none ("name:" ++ "bob")
          (some "name:desc")).data
        (([ann, bob].filter fun u =>
          includes (asciiLowerCase u.name) (asciiLowerCase "bob")).map format) :=
  ⟨by decide, by decide,
   (field_search asciiLowerCase codePointCompare [ann, bob] "bob" (by decide) (by decide)
     (by decide) 1 none (some "name:desc")).2.2.1⟩

/-- C4 as stated fails in its last part: the field is compared after the whole
search is lower-cased, so the field `EMAIL`, which is neither `name` nor
`email`, filters by email and `data` is not empty. All strings of this input
are ASCII, where `asciiLowerCase` is what `toLowerCase` does. -/
theorem field_search_counterexample :
    ¬ (∀ (localeCompare : String → String → Int) (userList : List User) (page : Int)
        (limit : Option Int) (sorting : Option String) (f y : String),
        ':' ∉ f.data → f ≠ "name" → f ≠ "email" →
        (getUsers asciiLowerCase localeCompare userList page limit (f ++ ":" ++ y)
          sorting).data = []) := by
  intro h
  have h1 := h codePointCompare [ann, bob] 1 none none "EMAIL" "a@" (by decide) (by decide)
    (by decide)
  revert h1
  decide

/-- The listing scenario: search `name:bob`, sort `name:desc`, page 1 of size
10 on the sample snapshot. -/
theorem listing_scenario :
    getUsers asciiLowerCase codePointCompare [ann, bob] 1 (some 10) "name:bob" (some "name:desc") =
      { page_number := 1, page_size := some 10, count := 1, total_pages := .num 1,
        has_previous_page := false, has_next_page := false, data := [format bob] } := by
  decide

theorem split_name_asc : split "name:asc" ':' = ["name", "asc"] := by decide

theorem split_name_desc : split "name:desc" ':' = ["name", "desc"] := by decide

theorem split_email_asc : split "email:asc" ':' = ["email", "asc"] := by decide

theorem split_email_desc : split "email:desc" ':' = ["email", "desc"] := by decide

/-- The output of `sort` is ordered by a comparator whose relation
`compareFn a b ≤ 0` is total and transitive. -/
theorem sort_pairwise {α : Type} (compareFn : α → α → Int)
    (htotal : ∀ a b, compareFn a b ≤ 0 ∨ compareFn b a ≤ 0)
    (htrans : ∀ a b c, compareFn a b ≤ 0 → compareFn b c ≤ 0 → compareFn a c ≤ 0)
    (l : List α) : (sort compareFn l).Pairwise (fun a b => compareFn a b ≤ 0) := by
  haveI : IsTotal α (fun a b => compareFn a b ≤ 0) := ⟨htotal⟩
  haveI : IsTrans α (fun a b => compareFn a b ≤ 0) := ⟨htrans⟩
  exact List.sorted_insertionSort (fun a b => compareFn a b ≤ 0) l

/-- An order of the sorted list is inherited by `data`. -/
theorem data_pairwise (toLowerCase : String → String)
    (localeCompare : String → String → Int) (userList : List User)
    (page : Int) (limit : Option Int) (searchQuery : String) (sorting : Option String)
    (R : FormattedUser → FormattedUser → Prop)
    (h : (sortedList localeCompare (filteredList toLowerCase userList searchQuery) sorting).Pairwise
      (fun a b => R (format a) (format b))) :
    (getUsers toLowerCase localeCompare userList page limit searchQuery sorting).data.Pairwise R := by
  simp only [getUsers, List.pairwise_map]
  exact h.sublist (slice_sublist _ _ _)

/-- C5: when `localeCompare` is a total preorder (the relation
`localeCompare a b ≤ 0` is total and transitive), for every snapshot, search,
page and page size, `data` is non-decreasing by name with sort `name:asc` and
non-increasing by name with `name:desc`, and likewise by email with
`email:asc` and `email:desc`; and for every sort parameter the sorted list is
a permutation of the filtered list. -/
theorem sort_order (toLowerCase : String → String) (localeCompare : String → String → Int)
    (htotal : ∀ a b, localeCompare a b ≤ 0 ∨ localeCompare b a ≤ 0)
    (htrans : ∀ a b c, localeCompare a b ≤ 0 → localeCompare b c ≤ 0 → localeCompare a c ≤ 0)
    (userList : List User) (page : Int) (limit : Option Int) (searchQuery : String) :
    (getUsers toLowerCase localeCompare userList page limit searchQuery (some "name:asc")).data.Pairwise
        (fun x y => localeCompare x.name y.name ≤ 0) ∧
      (getUsers toLowerCase localeCompare userList page limit searchQuery (some "name:desc")).data.Pairwise
        (fun x y => localeCompare y.name x.name ≤ 0) ∧
      (getUsers toLowerCase localeCompare userList page limit searchQuery (some "email:asc")).data.Pairwise
        (fun x y => localeCompare x.email y.email ≤ 0) ∧
      (getUsers toLowerCase localeCompare userList page limit searchQuery (some "email:desc")).data.Pairwise
        (fun x y => localeCompare y.email x.email ≤ 0) ∧
      ∀ sorting, List.Perm (sortedList localeCompare (filteredList toLowerCase userList searchQuery) sorting)
        (filteredList toLowerCase userList searchQuery) := by
  refine ⟨?_, ?_, ?_, ?_, fun sorting => sortedList_perm _ _ _⟩
  · apply data_pairwise
    have h := sort_pairwise (compareUsers localeCompare "name" "asc")
      (fun a b => by simpa [compareUsers] using htotal a.name b.name)
      (fun a b c => by simpa [compareUsers] using htrans a.name b.name c.name)
      (filteredList toLowerCase userList searchQuery)
    have hs : sortedList localeCompare (filteredList toLowerCase userList searchQuery) (some "name:asc") =
        sort (compareUsers localeCompare "name" "asc") (filteredList toLowerCase userList searchQuery) := by
      simp [sortedList, split_name_asc]
    rw [hs]
    simpa [compareUsers, format] using h
  · apply data_pairwise
    have h := sort_pairwise (compareUsers localeCompare "name" "desc")
      (fun a b => by simpa [compareUsers] using htotal b.name a.name)
      (fun a b c => by
        simpa [compareUsers] using fun h1 h2 => htrans c.name b.name a.name h2 h1)
      (filteredList toLowerCase userList searchQuery)
    have hs : sortedList localeCompare (filteredList toLowerCase userList searchQuery) (some "name:desc") =
        sort (compareUsers localeCompare "name" "desc") (filteredList toLowerCase userList searchQuery) := by
      simp [sortedList, split_name_desc]
    rw [hs]
    simpa [compareUsers, format] using h
  · apply data_pairwise
    have h := sort_pairwise (compareUsers localeCompare "email" "asc")
      (fun a b => by simpa [compareUsers] using htotal a.email b.email)
      (fun a b c => by simpa [compareUsers] using htrans a.email b.email c.email)
      (filteredList toLowerCase userList searchQuery)
    have hs : sortedList localeCompare (filteredList toLowerCase userList searchQuery) (some "email:asc") =
        sort (compareUsers localeCompare "email" "asc") (filteredList toLowerCase userList searchQuery) := by
      simp [sortedList, split_email_asc]
    rw [hs]
    simpa [compareUsers, format] using h
  · apply data_pairwise
    have h := sort_pairwise (compareUsers localeCompare "email" "desc")
      (fun a b => by simpa [compareUsers] using htotal b.email a.email)
      (fun a b c => by
        simpa [compareUsers] using fun h1 h2 => htrans c.email b.email a.email h2 h1)
      (filteredList toLowerCase userList searchQuery)
    have hs : sortedList localeCompare (filteredList toLowerCase userList searchQuery) (some "email:desc") =
        sort (compareUsers localeCompare "email" "desc") (filteredList toLowerCase userList searchQuery) := by
      simp [sortedList, split_email_desc]
    rw [hs]
    simpa [compareUsers, format] using h

theorem compareChars_total (a b : List Char) :
    compareChars a b ≤ 0 ∨ compareChars b a ≤ 0 := by
  induction a generalizing b with
  | nil => cases b <;> simp [compareChars]
  | cons x xs ih =>
    cases b with
    | nil => simp [compareChars]
    | cons y ys =>
      simp only [compareChars]
      rcases Nat.lt_trichotomy x.toNat y.toNat with h | h | h
      · simp [h]
      · simp [h, ih ys]
      · right; simp [h]

theorem compareChars_trans (a b c : List Char) (h1 : compareChars a b ≤ 0)
    (h2 : compareChars b c ≤ 0) : compareChars a c ≤ 0 := by
  induction a generalizing b c with
  | nil => cases c <;> simp [compareChars]
  | cons x xs ih =>
    cases b with
    | nil => simp [compareChars] at h1
    | cons y ys =>
      cases c with
      | nil => simp [compareChars] at h2
      | cons z zs =>
        simp only [compareChars] at h1 h2 ⊢
        split_ifs at h1 h2 ⊢ <;> first | omega | exact ih _ _ h1 h2

/-- Witness of `sort_order`: the sample snapshot under the code-point
comparison, sorted by name in descending order. -/
theorem sort_order_witness :
    (getUsers asciiLowerCase codePointCompare [ann, bob] 1 none "" (some "name:desc")).data.Pairwise
      (fun x y => codePointCompare y.name x.name ≤ 0) :=
  (sort_order asciiLowerCase codePointCompare (fun a b => compareChars_total a.data b.data)
    (fun a b c => compareChars_trans a.data b.data c.data) [ann, bob] 1 none "").2.1

theorem length_sortedList (localeCompare : String → String → Int) (filtered : List User)
    (sorting : Option String) :
    (sortedList localeCompare filtered sorting).length = filtered.length :=
  (sortedList_perm localeCompare filtered sorting).length_eq

/-- The length of a slice with a start index that is not negative and the end
index `min (start + size) length`. -/
theorem length_slice_page {α : Type} (l : List α) (start size : Int) (h0 : 0 ≤ start)
    (hs : 0 < size) :
    ((slice l start (min (start + size) l.length)).length : Int) =
      min size (max 0 ((l.length : Int) - start)) := by
  have hstop : 0 ≤ min (start + size) (l.length : Int) := by omega
  simp only [slice, List.length_drop, List.length_take,
    relativeIndex_of_nonneg _ _ h0, relativeIndex_of_nonneg _ _ hstop]
  omega

/-- C6: for every snapshot, search and sort, and all integers `page > 0` and
`pageSize > 0`, the listing has
`count = data.length = min(pageSize, max(0, totalMatches - (page-1)*pageSize))`
with `totalMatches` the number of records that pass the filter; a page beyond
the available data has empty `data` and `count` 0. -/
theorem page_count (toLowerCase : String → String)
    (localeCompare : String → String → Int) (userList : List User)
    (searchQuery : String) (sorting : Option String) (page pageSize : Int)
    (hp : 0 < page) (hs : 0 < pageSize) :
    ((getUsers toLowerCase localeCompare userList page (some pageSize) searchQuery sorting).count : Int) =
        min pageSize
          (max 0 (((filteredList toLowerCase userList searchQuery).length : Int) - (page - 1) * pageSize)) ∧
      (getUsers toLowerCase localeCompare userList page (some pageSize) searchQuery sorting).data.length =
        (getUsers toLowerCase localeCompare userList page (some pageSize) searchQuery sorting).count ∧
      (((filteredList toLowerCase userList searchQuery).length : Int) ≤ (page - 1) * pageSize →
        (getUsers toLowerCase localeCompare userList page (some pageSize) searchQuery sorting).data = [] ∧
        (getUsers toLowerCase localeCompare userList page (some pageSize) searchQuery sorting).count = 0) := by
  have h0 : 0 ≤ (page - 1) * pageSize := mul_nonneg (by omega) hs.le
  have ht : truthy (some pageSize) = true := by simp [truthy]; omega
  have hcount : ((getUsers toLowerCase localeCompare userList page (some pageSize) searchQuery
      sorting).count : Int) = min pageSize
        (max 0 (((filteredList toLowerCase userList searchQuery).length : Int) - (page - 1) * pageSize)) := by
    simp only [getUsers, paginatedList, startIndex, endIndex, ht, if_true, toNumber,
      Option.getD_some]
    rw [length_slice_page _ _ _ h0 hs, length_sortedList]
  have hlen : (getUsers toLowerCase localeCompare userList page (some pageSize) searchQuery
      sorting).data.length =
      (getUsers toLowerCase localeCompare userList page (some pageSize) searchQuery sorting).count := by
    simp [getUsers]
  refine ⟨hcount, hlen, ?_⟩
  intro hbeyond
  have hz : (getUsers toLowerCase localeCompare userList page (some pageSize) searchQuery
      sorting).count = 0 := by
    have : ((getUsers toLowerCase localeCompare userList page (some pageSize) searchQuery
      sorting).count : Int) = 0 := by
      rw [hcount]
      omega
    exact_mod_cast this
  exact ⟨List.length_eq_zero.mp (hlen.trans hz), hz⟩

/-- Witness of `page_count`: the second page of size 1 of the sample snapshot. -/
theorem page_count_witness :
    ((getUsers asciiLowerCase codePointCompare [ann, bob] 2 (some 1) "" none).count : Int) =
      min 1 (max 0 (((filteredList asciiLowerCase [ann, bob] "").length : Int) - (2 - 1) * 1)) :=
  (page_count asciiLowerCase codePointCompare [ann, bob] "" none 2 1 (by decide) (by decide)).1

theorem fdiv_neg_negSucc (a : Int) (n : Nat) :
    (-a).fdiv (Int.negSucc n) = a / ((n : Int) + 1) := by
  rcases a with (_ | m) | m
  · show Int.fdiv 0 _ = 0 / _
    simp
  · rfl
  · rfl

theorem floor_div_pos (a d : Int) (hd : 0 < d) : ⌊(a : ℚ) / (d : ℚ)⌋ = a.fdiv d := by
  obtain ⟨n, rfl⟩ := Int.eq_ofNat_of_zero_le hd.le
  rw [Int.fdiv_eq_ediv _ (by omega)]
  exact_mod_cast Rat.floor_intCast_div_natCast a n

/-- `ceilDiv a d` is the ceiling of the quotient `a / d` when `d` is not zero. -/
theorem ceilDiv_eq_ceil (a d : Int) (hd : d ≠ 0) : ceilDiv a d = ⌈(a : ℚ) / (d : ℚ)⌉ := by
  unfold ceilDiv
  rcases d with d | n
  · have hpos : (0 : Int) < Int.ofNat d := by
      rcases d with _ | d
      · exact absurd rfl hd
      · exact Int.ofNat_succ_pos d
    rw [← floor_div_pos _ _ hpos, ← Int.ceil_neg]
    congr 1
    push_cast
    ring
  · rw [fdiv_neg_negSucc]
    have h := Rat.floor_intCast_div_natCast a (n + 1)
    have e : ((Int.negSucc n : Int) : ℚ) = -(((n + 1 : Nat) : ℚ)) := by
      simp [Int.negSucc_eq]
    rw [e, div_neg, Int.ceil_neg, h]
    push_cast
    rfl

/-- When the divisor `limit || sortedList.length` is not zero, `total_pages` is
the ceiling of `totalMatches / effectivePageSize`. -/
theorem total_pages_eq_ceil (toLowerCase : String → String)
    (localeCompare : String → String → Int) (userList : List User)
    (page : Int) (limit : Option Int) (searchQuery : String) (sorting : Option String)
    (h : (if truthy limit then toNumber limit
      else ((filteredList toLowerCase userList searchQuery).length : Int)) ≠ 0) :
    (getUsers toLowerCase localeCompare userList page limit searchQuery sorting).total_pages =
      .num ⌈((filteredList toLowerCase userList searchQuery).length : ℚ) /
        (((if truthy limit then toNumber limit
          else ((filteredList toLowerCase userList searchQuery).length : Int)) : Int) : ℚ)⌉ := by
  simp only [getUsers, totalPages, length_sortedList]
  rw [if_neg h, ceilDiv_eq_ceil _ _ h]
  simp

/-- C7 fails on the code: with `limit` unset and no record passing the filter
the divisor `limit || sortedList.length` is `0`, and `total_pages` is the `NaN`
of `0 / 0`, not `0`; this holds for the sample snapshot searched for `zzz` and
for the empty snapshot. -/
theorem total_pages_unset_no_match :
    (filteredList asciiLowerCase [ann, bob] "zzz").length = 0 ∧
      (getUsers asciiLowerCase codePointCompare [ann, bob] 1 none "zzz" none).total_pages = .nan ∧
      (getUsers asciiLowerCase codePointCompare [] 1 none "" none).total_pages = .nan ∧
      (getUsers asciiLowerCase codePointCompare [ann, bob] 1 none "zzz" none).total_pages ≠ .num 0 := by
  decide

theorem ceilDiv_self (n : Int) (h : n ≠ 0) : ceilDiv n n = 1 := by
  rw [ceilDiv_eq_ceil n n h, div_self (by exact_mod_cast h)]
  simp

/-- C8 (amended): when `limit` is unset (`null`) or `0`, for every snapshot,
search, sort and page, `data` is the projection of the whole filtered and
sorted list and `count` is the number of matches; when there is at least one
match, `total_pages` is 1 and, for a `page` of at least 1, `has_next_page` is
false. -/
theorem no_limit (toLowerCase : String → String)
    (localeCompare : String → String → Int) (userList : List User)
    (page : Int) (limit : Option Int) (searchQuery : String) (sorting : Option String)
    (hl : limit = none ∨ limit = some 0) :
    (getUsers toLowerCase localeCompare userList page limit searchQuery sorting).data =
        (sortedList localeCompare (filteredList toLowerCase userList searchQuery) sorting).map format ∧
      (getUsers toLowerCase localeCompare userList page limit searchQuery sorting).count =
        (filteredList toLowerCase userList searchQuery).length ∧
      (0 < (filteredList toLowerCase userList searchQuery).length →
        (getUsers toLowerCase localeCompare userList page limit searchQuery sorting).total_pages = .num 1 ∧
        (1 ≤ page →
          (getUsers toLowerCase localeCompare userList page limit searchQuery sorting).has_next_page
            = false)) := by
  have hf : truthy limit = false := by
    rcases hl with rfl | rfl <;> rfl
  have htotal : 0 < (filteredList toLowerCase userList searchQuery).length →
      (getUsers toLowerCase localeCompare userList page limit searchQuery sorting).total_pages = .num 1 := by
    intro hpos
    have hne : ((filteredList toLowerCase userList searchQuery).length : Int) ≠ 0 := by omega
    simp only [getUsers, totalPages, length_sortedList, hf]
    simp only [Bool.false_eq_true, if_false, hne, ceilDiv_self _ hne]
  refine ⟨?_, ?_, ?_⟩
  · simp only [getUsers, paginatedList_of_falsy _ _ _ hf]
  · simp only [getUsers, paginatedList_of_falsy _ _ _ hf, length_sortedList]
  · intro hpos
    refine ⟨htotal hpos, ?_⟩
    have hn : (getUsers toLowerCase localeCompare userList page limit searchQuery sorting).has_next_page =
        (getUsers toLowerCase localeCompare userList page limit searchQuery sorting).total_pages.gt page := rfl
    intro hpage
    rw [hn, htotal hpos]
    simpa [JsNumber.gt] using hpage

/-- Witness of `no_limit`: the sample snapshot with `limit` unset. -/
theorem no_limit_witness :
    (getUsers asciiLowerCase codePointCompare [ann, bob] 1 none "" none).count =
        (filteredList asciiLowerCase [ann, bob] "").length ∧
      (getUsers asciiLowerCase codePointCompare [ann, bob] 1 none "" none).total_pages = .num 1 ∧
      (getUsers asciiLowerCase codePointCompare [ann, bob] 1 none "" none).has_next_page = false :=
  have h := no_limit asciiLowerCase codePointCompare [ann, bob] 1 none "" none (Or.inl rfl)
  ⟨h.2.1, (h.2.2 (by decide)).1, (h.2.2 (by decide)).2 (by decide)⟩

/-- C8 as stated fails for a page below 1: `has_next_page` is computed as
`totalPages > page`, so with `limit` unset, two matches and `page = -1` it is
true although all records are on the one page. -/
theorem no_limit_counterexample :
    ¬ (∀ (localeCompare : String → String → Int) (userList : List User) (page : Int)
        (limit : Option Int) (searchQuery : String) (sorting : Option String),
        (limit = none ∨ limit = some 0) →
        0 < (filteredList asciiLowerCase userList searchQuery).length →
        (getUsers asciiLowerCase localeCompare userList page limit searchQuery
            sorting).total_pages = .num 1 ∧
          (getUsers asciiLowerCase localeCompare userList page limit searchQuery
            sorting).has_next_page = false) := by
  intro h
  have h1 := h codePointCompare [ann, bob] (-1) none "" none (Or.inl rfl) (by decide)
  revert h1
  decide

/-- An absent or empty sort parameter, or one that does not split into exactly
two pieces at its colons, leaves the filtered list as it is. -/
theorem sortedList_unchanged (localeCompare : String → String → Int) (filtered : List User)
    (sorting : Option String)
    (h : sorting = none ∨ ∃ s, sorting = some s ∧ (s = "" ∨ (split s ':').length ≠ 2)) :
    sortedList localeCompare filtered sorting = filtered := by
  rcases h with rfl | ⟨s, rfl, h⟩
  · rfl
  · unfold sortedList
    rcases h with rfl | h
    · rfl
    · simp only
      split
      · rfl
      · split
        · rename_i heq
          rw [heq] at h
          exact absurd rfl h
        · rfl

/-- C9 fails on the code: the direction is only compared with `asc`, so the
sort parameter `name:foo` is taken as a descending sort by name; on the sample
snapshot the filtered order `[ann, bob]` comes back as `[bob, ann]`. -/
theorem sort_bad_direction_reorders :
    filteredList asciiLowerCase [ann, bob] "" = [ann, bob] ∧
      sortedList codePointCompare (filteredList asciiLowerCase [ann, bob] "") (some "name:foo") = [bob, ann] ∧
      (getUsers asciiLowerCase codePointCompare [ann, bob] 1 none "" (some "name:foo")).data =
        [format bob, format ann] ∧
      sortedList codePointCompare (filteredList asciiLowerCase [ann, bob] "") (some "name:foo") ≠
        filteredList asciiLowerCase [ann, bob] "" := by
  decide

theorem filteredList_map_withoutPassword (toLowerCase : String → String)
    (userList : List User) (searchQuery : String) :
    filteredList toLowerCase (userList.map withoutPassword) searchQuery =
      (filteredList toLowerCase userList searchQuery).map withoutPassword := by
  simp only [filteredList, List.filter_map]
  rfl

theorem sortedList_map_withoutPassword (localeCompare : String → String → Int)
    (filtered : List User) (sorting : Option String) :
    sortedList localeCompare (filtered.map withoutPassword) sorting =
      (sortedList localeCompare filtered sorting).map withoutPassword := by
  unfold sortedList
  split
  · rfl
  · split
    · rfl
    · split
      · unfold sort
        exact (List.map_insertionSort _ _ withoutPassword filtered
          (fun a _ b _ => Iff.rfl)).symm
      · rfl

theorem paginatedList_map_withoutPassword (sorted : List User) (page : Int)
    (limit : Option Int) :
    paginatedList (sorted.map withoutPassword) page limit =
      (paginatedList sorted page limit).map withoutPassword := by
  simp [paginatedList, slice, List.map_drop, List.map_take]

/-- The listing does not change when every password of the snapshot is
blanked. -/
theorem getUsers_map_withoutPassword (toLowerCase : String → String)
    (localeCompare : String → String → Int)
    (userList : List User) (page : Int) (limit : Option Int) (searchQuery : String)
    (sorting : Option String) :
    getUsers toLowerCase localeCompare (userList.map withoutPassword) page limit searchQuery sorting =
      getUsers toLowerCase localeCompare userList page limit searchQuery sorting := by
  have hf : ∀ l : List User, (l.map withoutPassword).map format = l.map format := by
    intro l
    simp [List.map_map, Function.comp_def, format, withoutPassword]
  simp only [getUsers, filteredList_map_withoutPassword, sortedList_map_withoutPassword,
    paginatedList_map_withoutPassword, List.length_map, hf]

theorem map_withoutPassword_of_format (us1 us2 : List User)
    (h : us1.map format = us2.map format) :
    us1.map withoutPassword = us2.map withoutPassword := by
  have hw : ∀ l : List User, l.map withoutPassword =
      (l.map format).map
        (fun d => { id := d.id, name := d.name, email := d.email, password := "" }) := by
    intro l
    simp [List.map_map, Function.comp_def, format, withoutPassword]
  rw [hw us1, hw us2, h]

/-- C10: every record of `data` consists of the `id`, `name` and `email` of a
record of the snapshot, and the whole listing does not depend on passwords: two
snapshots whose records agree, position by position, in `id`, `name` and
`email` give equal listings for equal query parameters. -/
theorem password_independent (toLowerCase : String → String)
    (localeCompare : String → String → Int)
    (us1 us2 : List User) (h : us1.map format = us2.map format)
    (page : Int) (limit : Option Int) (searchQuery : String) (sorting : Option String) :
    getUsers toLowerCase localeCompare us1 page limit searchQuery sorting =
        getUsers toLowerCase localeCompare us2 page limit searchQuery sorting ∧
      ∀ d ∈ (getUsers toLowerCase localeCompare us1 page limit searchQuery sorting).data,
        ∃ u ∈ us1, d = { id := u.id, name := u.name, email := u.email } := by
  constructor
  · rw [← getUsers_map_withoutPassword toLowerCase localeCompare us1,
      ← getUsers_map_withoutPassword toLowerCase localeCompare us2,
      map_withoutPassword_of_format us1 us2 h]
  · intro d hd
    obtain ⟨u, hu, _, rfl⟩ := mem_data _ _ _ _ _ _ _ d hd
    exact ⟨u, hu, rfl⟩

/-- Witness of `password_independent`: the sample snapshot and the same
snapshot with other passwords. -/
theorem password_independent_witness :
    getUsers asciiLowerCase codePointCompare [ann, bob] 1 (some 10) "name:bob" (some "name:desc") =
      getUsers asciiLowerCase codePointCompare
        [{ ann with password := "other" }, { bob with password := "secret" }]
        1 (some 10) "name:bob" (some "name:desc") :=
  (password_independent asciiLowerCase codePointCompare [ann, bob]
    [{ ann with password := "other" }, { bob with password := "secret" }] (by decide)
    1 (some 10) "name:bob" (some "name:desc")).1

end Users

/-! ## Theorems: the handler `getUsers` -/

namespace UsersController

open Users

/-- A page number that parses to `0` or to `NaN` is replaced by 1: the reply
is that of page 1. -/
theorem page_zero_or_nan (toLowerCase : String → String)
    (localeCompare : String → String → Int) (userList : List User)
    (page_size : JsNumber) (search sort : Option String) :
    getUsers toLowerCase localeCompare userList (.num 0) page_size search sort =
        getUsers toLowerCase localeCompare userList (.num 1) page_size search sort ∧
      getUsers toLowerCase localeCompare userList .nan page_size search sort =
        getUsers toLowerCase localeCompare userList (.num 1) page_size search sort :=
  ⟨rfl, rfl⟩

/-- C12 fails on the code: `parseInt(page_number) || 1` replaces only `NaN`
and `0`, so the page number `-1` reaches the service, whose slice then starts
at a negative index; on a snapshot of three with page size 1 the reply for
page `-1` holds the second record, taken from the tail, while page 1 holds the
first. -/
theorem negative_page_slices_tail :
    pageNum (.num (-1)) = -1 ∧
      (getUsers asciiLowerCase codePointCompare [ann, bob, cat] (.num (-1)) (.num 1) none none).data =
        [format bob] ∧
      (getUsers asciiLowerCase codePointCompare [ann, bob, cat] (.num 1) (.num 1) none none).data =
        [format ann] ∧
      getUsers asciiLowerCase codePointCompare [ann, bob, cat] (.num (-1)) (.num 1) none none ≠
        getUsers asciiLowerCase codePointCompare [ann, bob, cat] (.num 1) (.num 1) none none := by
  decide

end UsersController
